import Mathlib

/- Shallow embedding of the napari-ome-zarr reader module
   (napari_ome_zarr/_reader.py): Python values, dictionaries, and the
   metadata-transformation pipeline. -/

/-- Python dictionary keys used by the reader: strings and integers. -/
inductive Key where
  | kstr (s : String)
  | kint (n : Int)
deriving DecidableEq

/-- Python values as they occur in node metadata: None, booleans, ints,
    strings, lists, tuples, dicts, and constructed Colormap objects. -/
inductive Val where
  | vnone
  | vbool (b : Bool)
  | vint (n : Int)
  | vstr (s : String)
  | vlist (xs : List Val)
  | vtuple (xs : List Val)
  | vdict (entries : List (Key × Val))
  | vcmap (spec : Val)

mutual

/-- Python `==` on embedded values (structural equality). -/
def Val.beq : Val → Val → Bool
  | .vnone, .vnone => true
  | .vbool a, .vbool b => a == b
  | .vint a, .vint b => a == b
  | .vstr a, .vstr b => a == b
  | .vlist xs, .vlist ys => beqValList xs ys
  | .vtuple xs, .vtuple ys => beqValList xs ys
  | .vdict xs, .vdict ys => beqEntryList xs ys
  | .vcmap a, .vcmap b => Val.beq a b
  | _, _ => false

def beqValList : List Val → List Val → Bool
  | [], [] => true
  | a :: as, b :: bs => Val.beq a b && beqValList as bs
  | _, _ => false

def beqEntryList : List (Key × Val) → List (Key × Val) → Bool
  | [], [] => true
  | (k, a) :: as, (l, b) :: bs => k == l && Val.beq a b && beqEntryList as bs
  | _, _ => false

end

abbrev Dict := List (Key × Val)

/-- Python exceptions that the embedded code can raise. -/
inductive PyErr where
  | keyError
  | indexError
  | typeError
  | valueError
  | axisError
  | attributeError
deriving DecidableEq

/-- Python dict lookup `d.get(k)`: first entry with a matching key.
    Dicts built by `dset` keep keys unique, so "first" is exact. -/
def dget? : Dict → Key → Option Val
  | [], _ => none
  | p :: ps, k => if p.1 = k then some p.2 else dget? ps k

/-- Python `k in d` on a dict. -/
def dmem (d : Dict) (k : Key) : Bool := (dget? d k).isSome

/-- Python `d[k] = v`: update the entry in place if the key exists
    (keeping its position, as Python dicts do), otherwise append. -/
def dset (d : Dict) (k : Key) (v : Val) : Dict :=
  if dmem d k then d.map (fun p => if p.1 = k then (k, v) else p)
  else d ++ [(k, v)]

/-- Python `d[k].append(v)` for a dict whose values are lists; call sites
    guarantee the key is present and its value is a list. -/
def dappend (d : Dict) (k : Key) (v : Val) : Dict :=
  d.map (fun p =>
    if p.1 = k then
      (p.1, match p.2 with
            | .vlist xs => .vlist (xs ++ [v])
            | w => w)
    else p)

/-- Association-list lookup with Python `==` on arbitrary value keys
    (used for the local `scale_by_axis` dict), with a default. -/
def vGetD : List (Val × Val) → Val → Val → Val
  | [], _, dflt => dflt
  | p :: ps, k, dflt => if Val.beq k p.1 then p.2 else vGetD ps k dflt

/-- Python `d[k] = v` on a value-keyed association list (dict semantics:
    overwrite in place if present, else append). -/
def vset (d : List (Val × Val)) (k v : Val) : List (Val × Val) :=
  if d.any (fun p => Val.beq k p.1) then
    d.map (fun p => if Val.beq k p.1 then (p.1, v) else p)
  else d ++ [(k, v)]

/-- A dict key as a value (iterating a dict yields its keys). -/
def keyToVal : Key → Val
  | .kstr s => .vstr s
  | .kint n => .vint n

/-- Using a value as a dict key: strings and ints map to keys, booleans
    hash like ints in Python; lists and dicts are unhashable.  (Tuples and
    colormap objects are hashable in Python but never occur as keys of the
    dicts this reader touches; they are modelled as a type error.) -/
def toKeyE : Val → Except PyErr Key
  | .vstr s => .ok (.kstr s)
  | .vint n => .ok (.kint n)
  | .vbool b => .ok (.kint (if b then 1 else 0))
  | _ => .error .typeError

/-- Python iteration `for x in v`: lists and tuples yield elements,
    strings yield one-character strings, dicts yield their keys;
    everything else raises TypeError. -/
def toIterable : Val → Except PyErr (List Val)
  | .vlist xs => .ok xs
  | .vtuple xs => .ok xs
  | .vstr s => .ok (s.toList.map (fun c => .vstr (String.mk [c])))
  | .vdict d => .ok (d.map (fun p => keyToVal p.1))
  | _ => .error .typeError

/-- Sequence indexing with Python semantics (negative indices count from
    the end; out of range raises IndexError). -/
def listIndex (xs : List Val) (n : Int) : Except PyErr Val :=
  let i : Int := if n < 0 then n + xs.length else n
  if h : 0 ≤ i ∧ i.toNat < xs.length then .ok (xs.get ⟨i.toNat, h.2⟩)
  else .error .indexError

/-- Python subscript `v[i]`: dict key lookup, sequence indexing, or
    string indexing; anything else raises TypeError. -/
def pySubscript : Val → Val → Except PyErr Val
  | .vdict d, k =>
    match toKeyE k with
    | .error e => .error e
    | .ok key =>
      match dget? d key with
      | some v => .ok v
      | none => .error .keyError
  | .vlist xs, .vint n => listIndex xs n
  | .vtuple xs, .vint n => listIndex xs n
  | .vstr s, .vint n => listIndex (s.toList.map (fun c => .vstr (String.mk [c]))) n
  | _, _ => .error .typeError

/-- Python `needle in v` for the membership tests the reader performs
    (string needles against dicts, lists, tuples and strings). -/
def pyContains (v needle : Val) : Except PyErr Bool :=
  match v with
  | .vdict d =>
    match toKeyE needle with
    | .error e => .error e
    | .ok k => .ok (dmem d k)
  | .vlist xs => .ok (xs.any (fun x => Val.beq needle x))
  | .vtuple xs => .ok (xs.any (fun x => Val.beq needle x))
  | .vstr s =>
    match needle with
    | .vstr t => .ok (if (s.splitOn t).length > 1 ∨ t = s then true else false)
    | _ => .error .typeError
  | _ => .error .typeError

/-- Python `list.index(x)` restricted to the successful lookup the reader
    uses:
    index of the first element equal (Python `==`) to `x`. -/
def findIdxVal (xs : List Val) (x : Val) : Option Nat :=
  xs.findIdx? (fun y => Val.beq x y)

/-- A multiscale array level; only its shape is relevant to the reader. -/
structure Ary where
  shape : List Nat
deriving DecidableEq

/-- An ome-zarr node as the reader consumes it: array levels (possibly
    None), a metadata dict, and whether `node.load(Label)` is truthy. -/
structure Node where
  data : Option (List Ary)
  metadata : Dict
  isLabel : Bool

/-- One output record: the `(data, metadata, layer_type)` tuple. -/
structure LayerData where
  data : List Ary
  metadata : Dict
  layer_type : String

/-- The log statements the reader emits, as events (message levels:
    `errorReadingAxes` is error-level, the rest are debug-level). -/
inductive LogEvent where
  | skippingNonData
  | transforming
  | errorReadingAxes
  | debugMetadata
  | transformed
deriving DecidableEq

/-- Numpy `np.squeeze(level, axis=c)`: removes axis `c`; raises if `c` is out of
    range or if that dimension does not have size 1. -/
def np_squeeze (a : Ary) (c : Nat) : Except PyErr Ary :=
  if h : c < a.shape.length then
    if a.shape.get ⟨c, h⟩ = 1 then .ok ⟨a.shape.eraseIdx c⟩
    else .error .valueError
  else .error .axisError

/-- The comprehension `[np.squeeze(level, axis=c) for level in data]`. -/
def squeezeAll : List Ary → Nat → Except PyErr (List Ary)
  | [], _ => .ok []
  | a :: as, c =>
    match np_squeeze a c with
    | .error e => .error e
    | .ok a' =>
      match squeezeAll as c with
      | .error e => .error e
      | .ok as' => .ok (a' :: as')

def METADATA_KEYS : List Key :=
  [.kstr "name", .kstr "visible", .kstr "contrast_limits", .kstr "colormap",
   .kstr "color", .kstr "metadata"]

/-- The first pass of `transform_properties`: create an empty list for
    every key of every object. -/
def buildEmptyLists (ps : List (Key × List (Key × Val))) : Dict :=
  ps.foldl (fun acc p =>
    p.2.foldl (fun a kv => dset a kv.1 (.vlist [])) acc) []

/-- The field names observed across all objects, in first-seen order
    (the `keys` local of `transform_properties`). -/
def observedKeys (ps : List (Key × List (Key × Val))) : List Key :=
  (buildEmptyLists ps).map Prod.fst

/-- The pivot at the heart of `transform_properties`, on an input whose
    outer and inner dicts are already known to be dicts:
    `{label_id: {key: value}}` becomes a dict of one list per key plus an
    `"index"` list of the label ids. -/
def transform_properties_core (ps : List (Key × List (Key × Val))) : Dict :=
  let properties : Dict := buildEmptyLists ps
  let keys : List Key := properties.map Prod.fst
  let properties := dset properties (.kstr "index") (.vlist [])
  ps.foldl (fun acc p =>
    let acc := dappend acc (.kstr "index") (keyToVal p.1)
    keys.foldl (fun a k => dappend a k ((dget? p.2 k).getD .vnone)) acc)
    properties

/-- The keys of the pivoted dict: the observed field names plus `"index"`
    (appended at the end unless a field was itself named `"index"`). -/
def pivotKeys (ps : List (Key × List (Key × Val))) : List Key :=
  (dset (buildEmptyLists ps) (.kstr "index") (.vlist [])).map Prod.fst

/-- What one object appends to the pivoted list of key `k`: its id when
    `k` is `"index"`, then its value for field `k` (with `None` for a
    missing field) when `k` is an observed field name. -/
def pivotContrib (keys : List Key) (k : Key)
    (p : Key × List (Key × Val)) : List Val :=
  (if k = .kstr "index" then [keyToVal p.1] else []) ++
  (if k ∈ keys then [(dget? p.2 k).getD .vnone] else [])

/-- The full `transform_properties(props)` on the raw metadata value: `None` (or an
    absent key) yields `None`; a dict of dicts is pivoted; non-dict inputs
    raise when the code calls `.items()` / `.keys()` / `.get` on them. -/
def transform_properties (props : Option Val) : Except PyErr (Option Dict) :=
  match props with
  | none => .ok none
  | some .vnone => .ok none
  | some (.vdict entries) =>
    match entries.mapM (fun p =>
        match p.2 with
        | .vdict pd => Except.ok ((p.1, pd) : Key × List (Key × Val))
        | _ => Except.error PyErr.attributeError) with
    | .error e => .error e
    | .ok ps => .ok (some (transform_properties_core ps))
  | some _ => .error .attributeError

/-- The computation of one iteration of the descriptor loop in
    `transform_scale` (lines 94-106): when the descriptor carries both
    `scale` and `axisIndices`, pair them into the `scale_by_axis` dict and
    produce the per-dimension `scale_values` list — or `none` when the
    descriptor does not qualify or the list comes out empty. -/
def scaleDescOut (transf : Val) (channel_axis : Option Nat)
    (shape : List Nat) : Except PyErr (Option (List Val)) :=
  match pyContains transf (.vstr "scale") with
  | .error e => .error e
  | .ok false => .ok none
  | .ok true =>
    match pyContains transf (.vstr "axisIndices") with
    | .error e => .error e
    | .ok false => .ok none
    | .ok true =>
      match pySubscript transf (.vstr "axisIndices") with
      | .error e => .error e
      | .ok axis_indices =>
        match pySubscript transf (.vstr "scale") with
        | .error e => .error e
        | .ok scale =>
          match toIterable axis_indices with
          | .error e => .error e
          | .ok ai =>
            match toIterable scale with
            | .error e => .error e
            | .ok sc =>
              match (ai.zip sc).foldlM (fun d p =>
                  match p.1 with
                  | .vlist _ => Except.error PyErr.typeError
                  | .vdict _ => Except.error PyErr.typeError
                  | _ => Except.ok (vset d p.1 p.2)) [] with
              | .error e => .error e
              | .ok scale_by_axis =>
                let scale_values : List Val :=
                  (List.range shape.length).foldl (fun acc dim =>
                    if channel_axis = some dim then acc
                    else acc ++ [vGetD scale_by_axis (.vint dim) (.vint 1)]) []
                if scale_values.length > 0 then .ok (some scale_values)
                else .ok none

/-- One iteration of the descriptor loop in `transform_scale`: store the
    computed scale tuple (overwriting any previously stored one), or leave
    `metadata` alone when nothing was computed. -/
def scaleDesc (transf : Val) (metadata : Dict) (channel_axis : Option Nat)
    (shape : List Nat) : Except PyErr Dict :=
  match scaleDescOut transf channel_axis shape with
  | .error e => .error e
  | .ok none => .ok metadata
  | .ok (some scale_values) =>
    .ok (dset metadata (.kstr "scale") (.vtuple scale_values))

/-- The `for transf in level_0_transforms` loop of `transform_scale`. -/
def scaleLoop : List Val → Dict → Option Nat → List Nat → Except PyErr Dict
  | [], md, _, _ => .ok md
  | t :: ts, md, ch, shape =>
    match scaleDesc t md ch shape with
    | .error e => .error e
    | .ok md' => scaleLoop ts md' ch shape

/-- The function `transform_scale(node_metadata, metadata, channel_axis, shape)`:
    reads `node_metadata["transformations"][0]` when present and stores a
    per-dimension scale tuple into `metadata`; returns the updated
    `metadata` (the Python function mutates its argument). -/
def transform_scale (node_metadata metadata : Dict) (channel_axis : Option Nat)
    (shape : List Nat) : Except PyErr Dict :=
  if dmem node_metadata (.kstr "transformations") then
    match dget? node_metadata (.kstr "transformations") with
    | none => .ok metadata
    | some tv =>
      match pySubscript tv (.vint 0) with
      | .error e => .error e
      | .ok level0 =>
        match toIterable level0 with
        | .error e => .error e
        | .ok transfs => scaleLoop transfs metadata channel_axis shape
  else .ok metadata

/-- The data dimensions that receive a scale entry: every dimension of
    the shape except the channel axis. -/
def nonChannelDims (shape : List Nat) (channel_axis : Option Nat) : List Nat :=
  (List.range shape.length).filter
    (fun dim => if channel_axis = some dim then false else true)

/-- The value stored under `"scale"` after the descriptor loop, given the
    value it held before the loop: the last qualifying descriptor wins. -/
def lastStored (ts : List Val) (channel_axis : Option Nat) (shape : List Nat)
    (dflt : Option Val) : Option Val :=
  ts.foldl (fun acc t =>
    match scaleDescOut t channel_axis shape with
    | .ok (some vs) => some (.vtuple vs)
    | _ => acc) dflt

/-- Modelled from the spec (section 4.2 of the claim list, C3): the
    per-dimension last-wins merge the spec describes, in which every
    qualifying descriptor contributes to one accumulated dimension-to-
    factor mapping and later descriptors overwrite earlier ones only for
    the dimensions they cover.  This is the comparison point for the
    code's actual behaviour, not a transcription of the code. -/
def spec_merge_scale (descs : List (List (Nat × Val)))
    (channel_axis : Option Nat) (shape : List Nat) : Option (List Val) :=
  let merged : List (Val × Val) :=
    descs.foldl (fun acc pairs =>
      pairs.foldl (fun a p => vset a (.vint p.1) p.2) acc) []
  let scale_values :=
    (nonChannelDims shape channel_axis).map
      (fun dim => vGetD merged (.vint dim) (.vint 1))
  if scale_values.length > 0 ∧ descs.length > 0 then some scale_values
  else none

/-- The channel-axis detection block of `transform`:
    `[axis["type"] for axis in node.metadata["axes"]]`, then the index of
    the first `"channel"` tag (or None).  Any failure while reading the
    axes — the key missing included — is an exception. -/
def get_channel_axis (md : Dict) : Except PyErr (Option Nat) :=
  match dget? md (.kstr "axes") with
  | none => .error .keyError
  | some axesVal =>
    match toIterable axesVal with
    | .error e => .error e
    | .ok axes =>
      match axes.mapM (fun a => pySubscript a (.vstr "type")) with
      | .error e => .error e
      | .ok ch_types => .ok (findIdxVal ch_types (.vstr "channel"))

/-- Wrap each entry of `v` that is not already a Colormap. -/
def wrapCm (v : Val) : Val :=
  match v with
  | .vcmap _ => v
  | _ => .vcmap v

/-- The colormap-normalization loop of the image branch:
    `cms = node.metadata.get("colormap", []); for idx, cm in enumerate(cms):
    if not isinstance(cm, Colormap): cms[idx] = Colormap(cm)`.
    `cms` aliases the metadata entry, so a present list value is mutated in
    place; the updated node metadata is returned.  An empty non-list
    iterable is a no-op; other non-list values raise in the loop (item
    assignment on a string/tuple, or iteration of a non-iterable). -/
def wrapColormaps (md : Dict) : Except PyErr Dict :=
  match dget? md (.kstr "colormap") with
  | none => .ok md
  | some (.vlist xs) => .ok (dset md (.kstr "colormap") (.vlist (xs.map wrapCm)))
  | some (.vstr s) => if s.isEmpty then .ok md else .error .typeError
  | some (.vtuple xs) =>
    if xs.all (fun x => match x with | .vcmap _ => true | _ => false) then .ok md
    else .error .typeError
  | some (.vdict d) => if d.isEmpty then .ok md else .error .typeError
  | some _ => .error .typeError

/-- The loop `for x in METADATA_KEYS: if x in src: dst[x] = src[x]`. -/
def copyKeys (src dst : Dict) : Dict :=
  METADATA_KEYS.foldl (fun m x =>
    match dget? src x with
    | some v => dset m x v
    | none => m) dst

/-- The single-channel variant: `dst[x] = src[x][0]`, silently skipping
    the key when taking the first element raises. -/
def copyKeysFirst (src dst : Dict) : Dict :=
  METADATA_KEYS.foldl (fun m x =>
    match dget? src x with
    | some v =>
      match pySubscript v (.vint 0) with
      | .ok v0 => dset m x v0
      | .error _ => m
    | none => m) dst

/-- Lines 134-136 of the reader: if this layer got no scale, copy the
    first prior result's scale when it has one. -/
def inherit_scale (metadata : Dict) (results : List LayerData) : Dict :=
  if ¬ dmem metadata (.kstr "scale") then
    match results with
    | [] => metadata
    | r :: _ =>
      match dget? r.metadata (.kstr "scale") with
      | some v => dset metadata (.kstr "scale") v
      | none => metadata
  else metadata

/-- Lines 168-170: pivot `node.metadata.get("properties")` and store it
    when non-None. -/
def addProps (nodeMd md : Dict) : Except PyErr Dict :=
  match transform_properties (dget? nodeMd (.kstr "properties")) with
  | .error e => .error e
  | .ok none => .ok md
  | .ok (some props) => .ok (dset md (.kstr "properties") (.vdict props))

/-- Line 143-144: squeeze the channel axis out of every level when one
    was detected, otherwise keep the data as is. -/
def squeezeStep (dat : List Ary) : Option Nat → Except PyErr (List Ary)
  | some c => squeezeAll dat c
  | none => .ok dat

/-- Lines 153-166: the image-branch metadata copy — full list values plus
    the channel axis for multi-channel images, first elements for
    single-channel images. -/
def imageCopy (nmd md1 : Dict) : Option Nat → Dict
  | some c => copyKeys nmd (dset md1 (.kstr "channel_axis") (.vint c))
  | none => copyKeysFirst nmd md1

/-- The body of `transform`'s loop for one node with non-empty data
    `dat = node.data`: returns the log events it emits and either the
    exception it raises or the (possibly mutated) node together with the
    emitted `(data, metadata, layer_type)` record. -/
def deriveNode (node : Node) (dat : List Ary) (results : List LayerData) :
    List LogEvent × Except PyErr (Node × LayerData) :=
  match get_channel_axis node.metadata with
  | .error e => ([.transforming, .errorReadingAxes], .error e)
  | .ok channel_axis =>
    match transform_scale node.metadata [] channel_axis
        ((dat.headD ⟨[]⟩).shape) with
    | .error e => ([.transforming], .error e)
    | .ok md0 =>
      let md1 := inherit_scale md0 results
      if node.isLabel then
        let md2 := copyKeys node.metadata md1
        match squeezeStep dat channel_axis with
        | .error e => ([.transforming], .error e)
        | .ok dat' =>
          match addProps node.metadata md2 with
          | .error e => ([.transforming], .error e)
          | .ok md3 =>
            ([.transforming, .transformed],
             .ok (node, ⟨dat', md3, "labels"⟩))
      else
        match wrapColormaps node.metadata with
        | .error e => ([.transforming, .debugMetadata], .error e)
        | .ok nmd =>
          let md2 := imageCopy nmd md1 channel_axis
          match addProps nmd md2 with
          | .error e => ([.transforming, .debugMetadata], .error e)
          | .ok md3 =>
            ([.transforming, .debugMetadata, .transformed],
             .ok ({ node with metadata := nmd }, ⟨dat, md3, "image"⟩))

/-- A node contributes a record iff its data is present and non-empty. -/
def nonEmptyNode (node : Node) : Bool :=
  match node.data with
  | none => false
  | some d => decide (1 ≤ d.length)

/-- The `for node in nodes` loop of the deferred reader function `f`. -/
def fGo : List Node → List LayerData → List LogEvent →
    List LogEvent × Except PyErr (List LayerData)
  | [], results, logs => (logs, .ok results)
  | node :: rest, results, logs =>
    match node.data with
    | none => fGo rest results (logs ++ [.skippingNonData])
    | some dat =>
      if dat.length < 1 then fGo rest results (logs ++ [.skippingNonData])
      else
        match deriveNode node dat results with
        | (dlogs, .error e) => (logs ++ dlogs, .error e)
        | (dlogs, .ok (_, rv)) => fGo rest (results ++ [rv]) (logs ++ dlogs)

/-- Invoking the deferred reader function returned by `transform` on the
    node sequence: the emitted log events, and the result list or the
    exception that aborted the pass. -/
def transform_f (nodes : List Node) :
    List LogEvent × Except PyErr (List LayerData) :=
  fGo nodes [] []

/- ## Dictionary lemmas -/

theorem dget?_append (d e : Dict) (k : Key) :
    dget? (d ++ e) k =
      match dget? d k with
      | some v => some v
      | none => dget? e k := by
  induction d with
  | nil => simp [dget?]
  | cons p ps ih =>
    by_cases h : p.1 = k <;> simp [dget?, h, ih]

theorem dget?_updateMap_self (d : Dict) (k : Key) (v : Val)
    (h : (dget? d k).isSome = true) :
    dget? (d.map (fun p => if p.1 = k then (k, v) else p)) k = some v := by
  induction d with
  | nil => simp [dget?] at h
  | cons p ps ih =>
    by_cases hp : p.1 = k
    · simp [dget?, hp]
    · simp only [dget?, hp, if_neg hp] at h
      simp [dget?, hp, ih h]

theorem dget?_updateMap_ne (d : Dict) (k : Key) (v : Val) (x : Key)
    (h : x ≠ k) :
    dget? (d.map (fun p => if p.1 = k then (k, v) else p)) x = dget? d x := by
  induction d with
  | nil => simp
  | cons p ps ih =>
    by_cases hp : p.1 = k
    · have hpx : ¬ p.1 = x := by rw [hp]; exact fun hh => h hh.symm
      simp [dget?, hp, hpx, Ne.symm h, ih]
    · by_cases hx : p.1 = x
      · simp [dget?, hp, hx, h, ih]
      · simp [dget?, hp, hx, h, ih]

theorem dget?_dset_self (d : Dict) (k : Key) (v : Val) :
    dget? (dset d k v) k = some v := by
  unfold dset
  by_cases h : dmem d k
  · rw [if_pos h]
    exact dget?_updateMap_self d k v h
  · rw [if_neg h, dget?_append]
    unfold dmem at h
    cases hd : dget? d k with
    | some v' => rw [hd] at h; simp at h
    | none => simp [dget?]

theorem dget?_dset_ne (d : Dict) (k : Key) (v : Val) (x : Key) (h : x ≠ k) :
    dget? (dset d k v) x = dget? d x := by
  unfold dset
  by_cases hm : dmem d k
  · rw [if_pos hm]
    exact dget?_updateMap_ne d k v x h
  · rw [if_neg hm, dget?_append]
    cases hd : dget? d x with
    | some v' => simp
    | none => simp [dget?, Ne.symm h]

theorem dget?_isSome_iff_mem (d : Dict) (k : Key) :
    (dget? d k).isSome = true ↔ k ∈ d.map Prod.fst := by
  induction d with
  | nil => simp [dget?]
  | cons p ps ih =>
    by_cases h : p.1 = k
    · simp [dget?, h]
    · simp only [dget?, if_neg h, List.map_cons, List.mem_cons]
      rw [ih]
      constructor
      · exact fun hm => Or.inr hm
      · rintro (hk | hm)
        · exact absurd hk.symm h
        · exact hm

theorem keys_updateMap (d : Dict) (k : Key) (v : Val) :
    (d.map (fun p => if p.1 = k then (k, v) else p)).map Prod.fst =
      d.map Prod.fst := by
  induction d with
  | nil => simp
  | cons p ps ih =>
    by_cases hp : p.1 = k <;> simp [hp, ih]

theorem keys_dset (d : Dict) (k : Key) (v : Val) :
    (dset d k v).map Prod.fst =
      if k ∈ d.map Prod.fst then d.map Prod.fst
      else d.map Prod.fst ++ [k] := by
  unfold dset
  by_cases hm : dmem d k
  · have hk : k ∈ d.map Prod.fst := (dget?_isSome_iff_mem d k).1 hm
    rw [if_pos hm, if_pos hk, keys_updateMap]
  · have hk : ¬ k ∈ d.map Prod.fst :=
      fun hh => hm ((dget?_isSome_iff_mem d k).2 hh)
    rw [if_neg hm, if_neg hk]
    simp

theorem keys_dappend (d : Dict) (k : Key) (v : Val) :
    (dappend d k v).map Prod.fst = d.map Prod.fst := by
  unfold dappend
  induction d with
  | nil => simp
  | cons p ps ih =>
    by_cases hp : p.1 = k <;> simp [hp, ih]

theorem dget?_dappend_ne (d : Dict) (k : Key) (v : Val) (x : Key) (h : x ≠ k) :
    dget? (dappend d k v) x = dget? d x := by
  unfold dappend
  induction d with
  | nil => simp [dget?]
  | cons p ps ih =>
    by_cases hp : p.1 = k
    · have hpx : ¬ p.1 = x := by rw [hp]; exact fun hh => h hh.symm
      simp [dget?, hp, hpx, Ne.symm h, ih]
    · by_cases hx : p.1 = x
      · simp [dget?, hp, hx, h, Ne.symm h, ih]
      · simp [dget?, hp, hx, ih]

theorem dget?_dappend_list (d : Dict) (k : Key) (v : Val) (xs : List Val)
    (h : dget? d k = some (.vlist xs)) :
    dget? (dappend d k v) k = some (.vlist (xs ++ [v])) := by
  unfold dappend
  induction d with
  | nil => simp [dget?] at h
  | cons p ps ih =>
    by_cases hp : p.1 = k
    · simp only [dget?, hp, if_pos rfl, if_true] at h
      have hp2 : p.2 = .vlist xs := by simpa using h
      simp [dget?, hp, hp2]
    · simp only [dget?, hp, if_neg hp] at h
      simp [dget?, hp, ih h]

/- ## Folds over key lists (the METADATA_KEYS loops) -/

theorem foldl_keystep_not_mem (step : Dict → Key → Dict)
    (hstep : ∀ m k y, y ≠ k → dget? (step m k) y = dget? m y) :
    ∀ (ks : List Key) (m : Dict) (x : Key), x ∉ ks →
      dget? (ks.foldl step m) x = dget? m x := by
  intro ks
  induction ks with
  | nil => intro m x _; rfl
  | cons k ks ih =>
    intro m x hx
    have hxk : x ≠ k := fun hh => hx (hh ▸ List.mem_cons_self k ks)
    have hxs : x ∉ ks := fun hh => hx (List.mem_cons_of_mem k hh)
    rw [List.foldl_cons, ih (step m k) x hxs, hstep m k x hxk]

theorem foldl_keystep_mem (step : Dict → Key → Dict)
    (F : Option Val → Option Val) (x : Key)
    (hstep : ∀ m k y, y ≠ k → dget? (step m k) y = dget? m y)
    (hstepx : ∀ m, dget? (step m x) x = F (dget? m x)) :
    ∀ (ks : List Key) (m : Dict), x ∈ ks → ks.Nodup →
      dget? (ks.foldl step m) x = F (dget? m x) := by
  intro ks
  induction ks with
  | nil => intro m h; cases h
  | cons k ks ih =>
    intro m hmem hnd
    rcases List.mem_cons.mp hmem with hk | hk
    · subst hk
      have hxs : x ∉ ks := (List.nodup_cons.mp hnd).1
      rw [List.foldl_cons, foldl_keystep_not_mem step hstep ks _ x hxs, hstepx]
    · have hxk : x ≠ k := by
        intro hh
        subst hh
        exact (List.nodup_cons.mp hnd).1 hk
      rw [List.foldl_cons, ih _ hk (List.nodup_cons.mp hnd).2, hstep m k x hxk]

theorem metadata_keys_nodup : METADATA_KEYS.Nodup := by decide

theorem copyKeys_step_ne (src : Dict) :
    ∀ (m : Dict) (k y : Key), y ≠ k →
      dget? (match dget? src k with
             | some v => dset m k v
             | none => m) y = dget? m y := by
  intro m k y hy
  cases h : dget? src k with
  | some v => exact dget?_dset_ne m k v y hy
  | none => rfl

/-- The `METADATA_KEYS` copy loop at a key of the list: the source value
    wins when present, otherwise the destination entry is untouched. -/
theorem dget?_copyKeys_mem (src dst : Dict) (x : Key)
    (hx : x ∈ METADATA_KEYS) :
    dget? (copyKeys src dst) x =
      match dget? src x with
      | some v => some v
      | none => dget? dst x := by
  unfold copyKeys
  exact foldl_keystep_mem _
    (fun o => match dget? src x with
              | some v => some v
              | none => o) x
    (copyKeys_step_ne src)
    (fun m => by
      cases h : dget? src x with
      | some v => simp [h, dget?_dset_self]
      | none => simp [h])
    METADATA_KEYS dst hx metadata_keys_nodup

theorem dget?_copyKeys_not_mem (src dst : Dict) (x : Key)
    (hx : x ∉ METADATA_KEYS) :
    dget? (copyKeys src dst) x = dget? dst x := by
  unfold copyKeys
  exact foldl_keystep_not_mem _ (copyKeys_step_ne src) METADATA_KEYS dst x hx

theorem copyKeysFirst_step_ne (src : Dict) :
    ∀ (m : Dict) (k y : Key), y ≠ k →
      dget? (match dget? src k with
             | some v =>
               match pySubscript v (.vint 0) with
               | .ok v0 => dset m k v0
               | .error _ => m
             | none => m) y = dget? m y := by
  intro m k y hy
  cases h : dget? src k with
  | some v =>
    show dget? (match pySubscript v (.vint 0) with
                | .ok v0 => dset m k v0
                | .error _ => m) y = dget? m y
    cases h0 : pySubscript v (.vint 0) with
    | ok v0 => exact dget?_dset_ne m k v0 y hy
    | error e => rfl
  | none => rfl

theorem copyKeysFirst_step_self (src : Dict) (x : Key) (m : Dict) :
    dget? (match dget? src x with
           | some v =>
             match pySubscript v (.vint 0) with
             | .ok v0 => dset m x v0
             | .error _ => m
           | none => m) x =
      (match dget? src x with
       | some v =>
         match pySubscript v (.vint 0) with
         | .ok v0 => some v0
         | .error _ => dget? m x
       | none => dget? m x) := by
  cases h : dget? src x with
  | none => rfl
  | some v =>
    show dget? (match pySubscript v (.vint 0) with
                | .ok v0 => dset m x v0
                | .error _ => m) x =
      (match pySubscript v (.vint 0) with
       | .ok v0 => some v0
       | .error _ => dget? m x)
    cases h0 : pySubscript v (.vint 0) with
    | ok v0 => exact dget?_dset_self m x v0
    | error e => rfl

/-- The single-channel copy loop at a key of the list: the first element
    of the source value when that extraction succeeds, the untouched
    destination entry otherwise. -/
theorem dget?_copyKeysFirst_mem (src dst : Dict) (x : Key)
    (hx : x ∈ METADATA_KEYS) :
    dget? (copyKeysFirst src dst) x =
      match dget? src x with
      | some v =>
        match pySubscript v (.vint 0) with
        | .ok v0 => some v0
        | .error _ => dget? dst x
      | none => dget? dst x := by
  unfold copyKeysFirst
  exact foldl_keystep_mem _
    (fun o => match dget? src x with
              | some v =>
                match pySubscript v (.vint 0) with
                | .ok v0 => some v0
                | .error _ => o
              | none => o) x
    (copyKeysFirst_step_ne src)
    (copyKeysFirst_step_self src x)
    METADATA_KEYS dst hx metadata_keys_nodup

theorem dget?_copyKeysFirst_not_mem (src dst : Dict) (x : Key)
    (hx : x ∉ METADATA_KEYS) :
    dget? (copyKeysFirst src dst) x = dget? dst x := by
  unfold copyKeysFirst
  exact foldl_keystep_not_mem _ (copyKeysFirst_step_ne src) METADATA_KEYS dst x hx

/- ## Equality-test lemmas for Python equality -/

theorem beq_vstr_iff (s : String) (v : Val) :
    Val.beq (.vstr s) v = true ↔ v = .vstr s := by
  cases v with
  | vstr t =>
    constructor
    · intro h
      have hst : s = t := eq_of_beq h
      rw [hst]
    · intro h
      injection h with ht
      show (s == t) = true
      rw [ht]
      exact beq_self_eq_true s
  | vnone => exact iff_of_false (fun h => nomatch h) (fun h => nomatch h)
  | vbool b => exact iff_of_false (fun h => nomatch h) (fun h => nomatch h)
  | vint n => exact iff_of_false (fun h => nomatch h) (fun h => nomatch h)
  | vlist xs => exact iff_of_false (fun h => nomatch h) (fun h => nomatch h)
  | vtuple xs => exact iff_of_false (fun h => nomatch h) (fun h => nomatch h)
  | vdict xs => exact iff_of_false (fun h => nomatch h) (fun h => nomatch h)
  | vcmap w => exact iff_of_false (fun h => nomatch h) (fun h => nomatch h)

/- ## Scale-extraction lemmas -/

theorem foldl_append_filter (ch : Option Nat) (g : Nat → Val) :
    ∀ (xs : List Nat) (acc : List Val),
      xs.foldl (fun acc dim =>
          if ch = some dim then acc else acc ++ [g dim]) acc =
        acc ++ (xs.filter
          (fun dim => if ch = some dim then false else true)).map g := by
  intro xs
  induction xs with
  | nil => intro acc; simp
  | cons x xs ih =>
    intro acc
    by_cases h : ch = some x
    · rw [List.foldl_cons, if_pos h, ih,
        List.filter_cons_of_neg (by simp [h])]
    · rw [List.foldl_cons, if_neg h, ih,
        List.filter_cons_of_pos (by simp [h])]
      simp

theorem scaleDescOut_some (t : Val) (ch : Option Nat) (shape : List Nat)
    (vs : List Val) (h : scaleDescOut t ch shape = .ok (some vs)) :
    ∃ axis_indices scale ai sc sba,
      pySubscript t (.vstr "axisIndices") = .ok axis_indices ∧
      pySubscript t (.vstr "scale") = .ok scale ∧
      toIterable axis_indices = .ok ai ∧
      toIterable scale = .ok sc ∧
      (ai.zip sc).foldlM (fun d p =>
          match p.1 with
          | .vlist _ => Except.error PyErr.typeError
          | .vdict _ => Except.error PyErr.typeError
          | _ => Except.ok (vset d p.1 p.2)) [] = .ok sba ∧
      vs = (nonChannelDims shape ch).map
        (fun (dim : Nat) => vGetD sba (.vint dim) (.vint 1)) ∧
      0 < vs.length := by
  unfold scaleDescOut at h
  cases h1 : pyContains t (.vstr "scale") with
  | error e => simp [h1] at h
  | ok b1 =>
    cases b1 with
    | false => simp [h1] at h
    | true =>
      simp only [h1] at h
      cases h2 : pyContains t (.vstr "axisIndices") with
      | error e => simp [h2] at h
      | ok b2 =>
        cases b2 with
        | false => simp [h2] at h
        | true =>
          simp only [h2] at h
          cases h3 : pySubscript t (.vstr "axisIndices") with
          | error e => simp [h3] at h
          | ok axis_indices =>
            simp only [h3] at h
            cases h4 : pySubscript t (.vstr "scale") with
            | error e => simp [h4] at h
            | ok scale =>
              simp only [h4] at h
              cases h5 : toIterable axis_indices with
              | error e => simp [h5] at h
              | ok ai =>
                simp only [h5] at h
                cases h6 : toIterable scale with
                | error e => simp [h6] at h
                | ok sc =>
                  simp only [h6] at h
                  cases h7 : (ai.zip sc).foldlM (fun d p =>
                      match p.1 with
                      | .vlist _ => Except.error PyErr.typeError
                      | .vdict _ => Except.error PyErr.typeError
                      | _ => Except.ok (vset d p.1 p.2)) [] with
                  | error e => simp [h7] at h
                  | ok scale_by_axis =>
                    simp only [h7] at h
                    rw [foldl_append_filter] at h
                    split at h
                    · refine ⟨axis_indices, scale, ai, sc, scale_by_axis,
                        rfl, rfl, h5, h6, h7, ?_, ?_⟩
                      · have hv := h
                        injection hv with hv'
                        injection hv' with hv''
                        rw [← hv'']
                        simp only [nonChannelDims, List.nil_append]
                      · rename_i hlen
                        have hv := h
                        injection hv with hv'
                        injection hv' with hv''
                        rw [← hv'']
                        simpa using hlen
                    · simp at h

theorem scaleLoop_char (ch : Option Nat) (shape : List Nat) :
    ∀ (ts : List Val) (md md' : Dict),
      scaleLoop ts md ch shape = .ok md' →
      dget? md' (.kstr "scale") =
        lastStored ts ch shape (dget? md (.kstr "scale")) ∧
      ∀ x, x ≠ Key.kstr "scale" → dget? md' x = dget? md x := by
  intro ts
  induction ts with
  | nil =>
    intro md md' h
    injection h with h'
    subst h'
    exact ⟨rfl, fun x _ => rfl⟩
  | cons t ts ih =>
    intro md md' h
    unfold scaleLoop at h
    cases hd : scaleDesc t md ch shape with
    | error e => simp [hd] at h
    | ok md1 =>
      simp only [hd] at h
      obtain ⟨ih1, ih2⟩ := ih md1 md' h
      unfold scaleDesc at hd
      cases ho : scaleDescOut t ch shape with
      | error e => simp [ho] at hd
      | ok o =>
        cases o with
        | none =>
          simp only [ho] at hd
          injection hd with hmd
          subst hmd
          constructor
          · rw [ih1]
            simp [lastStored, List.foldl_cons, ho]
          · exact ih2
        | some vs =>
          simp only [ho] at hd
          injection hd with hmd
          subst hmd
          constructor
          · rw [ih1, dget?_dset_self]
            simp [lastStored, List.foldl_cons, ho]
          · intro x hx
            rw [ih2 x hx, dget?_dset_ne _ _ _ _ hx]

theorem transform_scale_cases (nmd md₀ : Dict) (ch : Option Nat)
    (shape : List Nat) (md : Dict)
    (h : transform_scale nmd md₀ ch shape = .ok md) :
    md = md₀ ∨
    ∃ tv l0 ts, dget? nmd (.kstr "transformations") = some tv ∧
      pySubscript tv (.vint 0) = .ok l0 ∧ toIterable l0 = .ok ts ∧
      scaleLoop ts md₀ ch shape = .ok md := by
  unfold transform_scale at h
  by_cases hm : dmem nmd (.kstr "transformations")
  · rw [if_pos hm] at h
    cases hg : dget? nmd (.kstr "transformations") with
    | none =>
      simp only [hg] at h
      injection h with h'
      exact Or.inl h'.symm
    | some tv =>
      simp only [hg] at h
      cases hs : pySubscript tv (.vint 0) with
      | error e => simp [hs] at h
      | ok l0 =>
        simp only [hs] at h
        cases hi : toIterable l0 with
        | error e => simp [hi] at h
        | ok ts =>
          simp only [hi] at h
          exact Or.inr ⟨tv, l0, ts, rfl, hs, hi, h⟩
  · rw [if_neg hm] at h
    injection h with h'
    exact Or.inl h'.symm

theorem lastStored_append (ch : Option Nat) (shape : List Nat)
    (xs ys : List Val) (d : Option Val) :
    lastStored (xs ++ ys) ch shape d =
      lastStored ys ch shape (lastStored xs ch shape d) := by
  unfold lastStored
  exact List.foldl_append _ _ xs ys

theorem lastStored_all_none (ch : Option Nat) (shape : List Nat) :
    ∀ (ts : List Val) (d : Option Val),
      (∀ u ∈ ts, scaleDescOut u ch shape = .ok none) →
      lastStored ts ch shape d = d := by
  intro ts
  induction ts with
  | nil => intro d _; rfl
  | cons t ts ih =>
    intro d hall
    have ht := hall t (List.mem_cons_self t ts)
    have hts := fun u hu => hall u (List.mem_cons_of_mem t hu)
    rw [show lastStored (t :: ts) ch shape d =
        lastStored ts ch shape
          (match scaleDescOut t ch shape with
           | .ok (some vs) => some (.vtuple vs)
           | _ => d) from rfl]
    simp only [ht]
    exact ih d hts

theorem lastStored_some_inv_last (ch : Option Nat) (shape : List Nat) :
    ∀ (ts : List Val) (d : Option Val) (w : Val),
      lastStored ts ch shape d = some w →
      (∃ pre t post vs, ts = pre ++ t :: post ∧
        scaleDescOut t ch shape = .ok (some vs) ∧ w = .vtuple vs ∧
        ∀ u ∈ post, ∀ vs', scaleDescOut u ch shape ≠ .ok (some vs')) ∨
      (d = some w ∧
        ∀ u ∈ ts, ∀ vs', scaleDescOut u ch shape ≠ .ok (some vs')) := by
  intro ts
  induction ts with
  | nil =>
    intro d w h
    exact Or.inr ⟨h, fun u hu => absurd hu (List.not_mem_nil u)⟩
  | cons t ts ih =>
    intro d w h
    rw [show lastStored (t :: ts) ch shape d =
        lastStored ts ch shape
          (match scaleDescOut t ch shape with
           | .ok (some vs) => some (.vtuple vs)
           | _ => d) from rfl] at h
    rcases ih _ w h with ⟨pre, t', post, vs, hts, ho, hw, hpost⟩ |
      ⟨hd, hnone⟩
    · refine Or.inl ⟨t :: pre, t', post, vs, ?_, ho, hw, hpost⟩
      rw [hts]
      rfl
    · cases hsd : scaleDescOut t ch shape with
      | error e =>
        simp only [hsd] at hd
        refine Or.inr ⟨hd, fun u hu vs' => ?_⟩
        rcases List.mem_cons.mp hu with rfl | hu
        · rw [hsd]
          intro hc
          cases hc
        · exact hnone u hu vs'
      | ok o =>
        cases o with
        | none =>
          simp only [hsd] at hd
          refine Or.inr ⟨hd, fun u hu vs' => ?_⟩
          rcases List.mem_cons.mp hu with rfl | hu
          · rw [hsd]
            intro hc
            injection hc with hc'
            cases hc'
          · exact hnone u hu vs'
        | some vs =>
          simp only [hsd] at hd
          injection hd with hd'
          exact Or.inl ⟨[], t, ts, vs, rfl, hsd, hd'.symm,
            fun u hu vs' => hnone u hu vs'⟩

theorem length_filter_range (n c : Nat) :
    ((List.range n).filter
      (fun dim => if (some c : Option Nat) = some dim then false
                  else true)).length =
      n - (if c < n then 1 else 0) := by
  induction n with
  | zero => simp
  | succ n ih =>
    rw [List.range_succ, List.filter_append, List.length_append, ih]
    by_cases hc : c = n
    · subst hc
      simp [Nat.lt_succ_self]
    · have : (some c : Option Nat) = some n ↔ False := by simp [hc]
      simp only [List.filter_cons, List.filter_nil, this]
      by_cases hlt : c < n
      · have : c < n + 1 := Nat.lt_succ_of_lt hlt
        simp [hc, hlt, this]
        omega
      · have h2 : ¬ c < n + 1 := by omega
        simp [hc, hlt, h2]

theorem length_nonChannelDims (shape : List Nat) (ch : Option Nat) :
    (nonChannelDims shape ch).length =
      shape.length - (match ch with
                      | some c => if c < shape.length then 1 else 0
                      | none => 0) := by
  cases ch with
  | none => simp [nonChannelDims]
  | some c => exact length_filter_range shape.length c

theorem beq_vint_iff (n : Int) (v : Val) :
    Val.beq (.vint n) v = true ↔ v = .vint n := by
  cases v with
  | vint m =>
    constructor
    · intro h
      have hnm : n = m := eq_of_beq h
      rw [hnm]
    · intro h
      injection h with hm
      show (n == m) = true
      rw [hm]
      exact beq_self_eq_true n
  | vnone => exact iff_of_false (fun h => nomatch h) (fun h => nomatch h)
  | vbool b => exact iff_of_false (fun h => nomatch h) (fun h => nomatch h)
  | vstr s => exact iff_of_false (fun h => nomatch h) (fun h => nomatch h)
  | vlist xs => exact iff_of_false (fun h => nomatch h) (fun h => nomatch h)
  | vtuple xs => exact iff_of_false (fun h => nomatch h) (fun h => nomatch h)
  | vdict xs => exact iff_of_false (fun h => nomatch h) (fun h => nomatch h)
  | vcmap w => exact iff_of_false (fun h => nomatch h) (fun h => nomatch h)

/- ## Property-pivot lemmas -/

theorem nodup_keys_dset (d : Dict) (k : Key) (v : Val)
    (h : (d.map Prod.fst).Nodup) : ((dset d k v).map Prod.fst).Nodup := by
  rw [keys_dset]
  by_cases hm : k ∈ d.map Prod.fst
  · rw [if_pos hm]; exact h
  · rw [if_neg hm]
    simp [List.nodup_append, h, hm]

theorem vals_dset (d : Dict) (k : Key) (w : Val)
    (h : ∀ q ∈ d, q.2 = w) : ∀ q ∈ dset d k w, q.2 = w := by
  intro q hq
  unfold dset at hq
  by_cases hm : dmem d k
  · rw [if_pos hm] at hq
    rcases List.mem_map.mp hq with ⟨r, hr, hrq⟩
    by_cases hrk : r.1 = k
    · rw [if_pos hrk] at hrq
      rw [← hrq]
    · rw [if_neg hrk] at hrq
      rw [← hrq]
      exact h r hr
  · rw [if_neg hm] at hq
    rcases List.mem_append.mp hq with hq | hq
    · exact h q hq
    · rcases List.mem_singleton.mp hq with rfl
      rfl

theorem dget?_of_vals (d : Dict) (k : Key) (v : Val) (w : Val)
    (hall : ∀ q ∈ d, q.2 = w) (h : dget? d k = some v) : v = w := by
  induction d with
  | nil => simp [dget?] at h
  | cons p ps ih =>
    unfold dget? at h
    by_cases hp : p.1 = k
    · rw [if_pos hp] at h
      injection h with h'
      rw [← h']
      exact hall p (List.mem_cons_self p ps)
    · rw [if_neg hp] at h
      exact ih (fun q hq => hall q (List.mem_cons_of_mem p hq)) h

theorem inner_dsetFold_char (kvs : List (Key × Val)) :
    ∀ (acc : Dict),
      (∀ q ∈ acc, q.2 = Val.vlist []) → (acc.map Prod.fst).Nodup →
      ((∀ q ∈ kvs.foldl (fun a kv => dset a kv.1 (.vlist [])) acc,
          q.2 = Val.vlist []) ∧
       (((kvs.foldl (fun a kv => dset a kv.1 (.vlist [])) acc).map
          Prod.fst).Nodup) ∧
       (∀ k, k ∈ (kvs.foldl (fun a kv => dset a kv.1 (.vlist [])) acc).map
          Prod.fst ↔ k ∈ acc.map Prod.fst ∨ k ∈ kvs.map Prod.fst)) := by
  induction kvs with
  | nil =>
    intro acc h1 h2
    exact ⟨h1, h2, fun k => by simp⟩
  | cons kv kvs ih =>
    intro acc h1 h2
    have h1' := vals_dset acc kv.1 (.vlist []) h1
    have h2' := nodup_keys_dset acc kv.1 (.vlist []) h2
    obtain ⟨g1, g2, g3⟩ := ih (dset acc kv.1 (.vlist [])) h1' h2'
    refine ⟨g1, g2, fun k => ?_⟩
    rw [List.foldl_cons, g3 k, keys_dset]
    by_cases hm : kv.1 ∈ acc.map Prod.fst
    · rw [if_pos hm]
      simp only [List.map_cons, List.mem_cons]
      constructor
      · rintro (h | h)
        · exact Or.inl h
        · exact Or.inr (Or.inr h)
      · rintro (h | h | h)
        · exact Or.inl h
        · subst h; exact Or.inl hm
        · exact Or.inr h
    · rw [if_neg hm]
      simp only [List.mem_append, List.mem_singleton, List.map_cons,
        List.mem_cons, List.not_mem_nil, or_false]
      tauto

theorem buildEmptyLists_go (ps : List (Key × List (Key × Val))) :
    ∀ (acc : Dict),
      (∀ q ∈ acc, q.2 = Val.vlist []) → (acc.map Prod.fst).Nodup →
      (∀ q ∈ ps.foldl (fun acc p =>
          p.2.foldl (fun a kv => dset a kv.1 (.vlist [])) acc) acc,
        q.2 = Val.vlist []) ∧
      (((ps.foldl (fun acc p =>
          p.2.foldl (fun a kv => dset a kv.1 (.vlist [])) acc) acc).map
        Prod.fst).Nodup) ∧
      (∀ k, k ∈ (ps.foldl (fun acc p =>
          p.2.foldl (fun a kv => dset a kv.1 (.vlist [])) acc) acc).map
        Prod.fst ↔ k ∈ acc.map Prod.fst ∨ ∃ p ∈ ps, k ∈ p.2.map Prod.fst) := by
  induction ps with
  | nil =>
    intro acc h1 h2
    exact ⟨h1, h2, fun k => by simp⟩
  | cons p ps ih =>
    intro acc h1 h2
    obtain ⟨f1, f2, f3⟩ := inner_dsetFold_char p.2 acc h1 h2
    obtain ⟨g1, g2, g3⟩ := ih _ f1 f2
    refine ⟨g1, g2, fun k => ?_⟩
    rw [List.foldl_cons, g3 k, f3 k]
    constructor
    · rintro ((h | h) | ⟨q, hq, hk⟩)
      · exact Or.inl h
      · exact Or.inr ⟨p, List.mem_cons_self p ps, h⟩
      · exact Or.inr ⟨q, List.mem_cons_of_mem p hq, hk⟩
    · rintro (h | ⟨q, hq, hk⟩)
      · exact Or.inl (Or.inl h)
      · rcases List.mem_cons.mp hq with rfl | hq
        · exact Or.inl (Or.inr hk)
        · exact Or.inr ⟨q, hq, hk⟩

theorem buildEmptyLists_char (ps : List (Key × List (Key × Val))) :
    (∀ q ∈ buildEmptyLists ps, q.2 = Val.vlist []) ∧
    (observedKeys ps).Nodup ∧
    (∀ k, k ∈ observedKeys ps ↔ ∃ p ∈ ps, k ∈ p.2.map Prod.fst) := by
  obtain ⟨a, b, c⟩ := buildEmptyLists_go ps [] (by simp) (by simp)
  unfold observedKeys buildEmptyLists
  refine ⟨a, b, fun k => ?_⟩
  rw [c k]
  simp

theorem fold_dappend_not_mem (vals : Key → Val) :
    ∀ (ks : List Key) (a : Dict) (x : Key), x ∉ ks →
      dget? (ks.foldl (fun a k => dappend a k (vals k)) a) x = dget? a x := by
  intro ks
  induction ks with
  | nil => intro a x _; rfl
  | cons k ks ih =>
    intro a x hx
    have hxk : x ≠ k := fun hh => hx (hh ▸ List.mem_cons_self k ks)
    have hxs : x ∉ ks := fun hh => hx (List.mem_cons_of_mem k hh)
    rw [List.foldl_cons, ih _ x hxs, dget?_dappend_ne a k (vals k) x hxk]

theorem fold_dappend_mem (vals : Key → Val) :
    ∀ (ks : List Key) (a : Dict) (x : Key) (xs : List Val), x ∈ ks →
      ks.Nodup → dget? a x = some (.vlist xs) →
      dget? (ks.foldl (fun a k => dappend a k (vals k)) a) x =
        some (.vlist (xs ++ [vals x])) := by
  intro ks
  induction ks with
  | nil => intro a x xs h; cases h
  | cons k ks ih =>
    intro a x xs hmem hnd ha
    rcases List.mem_cons.mp hmem with rfl | hk
    · have hxs : x ∉ ks := (List.nodup_cons.mp hnd).1
      rw [List.foldl_cons, fold_dappend_not_mem vals ks _ x hxs,
        dget?_dappend_list a x (vals x) xs ha]
    · have hxk : x ≠ k := by
        intro hh
        subst hh
        exact (List.nodup_cons.mp hnd).1 hk
      rw [List.foldl_cons]
      exact ih _ x xs hk (List.nodup_cons.mp hnd).2
        (by rw [dget?_dappend_ne a k (vals k) x hxk]; exact ha)

theorem pass2_step (keys keys0 : List Key) (hk : keys.Nodup)
    (hsub : ∀ k ∈ keys, k ∈ keys0) (hidx : Key.kstr "index" ∈ keys0)
    (p : Key × List (Key × Val)) (acc : Dict) (L : Key → List Val)
    (hinv : ∀ k, dget? acc k =
      if k ∈ keys0 then some (.vlist (L k)) else none) :
    ∀ k, dget? (keys.foldl
        (fun a k => dappend a k ((dget? p.2 k).getD .vnone))
        (dappend acc (.kstr "index") (keyToVal p.1))) k =
      if k ∈ keys0 then some (.vlist (L k ++ pivotContrib keys k p))
      else none := by
  have h1 : ∀ k, dget? (dappend acc (.kstr "index") (keyToVal p.1)) k =
      if k ∈ keys0 then
        some (.vlist (L k ++ (if k = .kstr "index" then [keyToVal p.1]
          else [])))
      else none := by
    intro k
    by_cases hki : k = .kstr "index"
    · subst hki
      rw [dget?_dappend_list acc _ (keyToVal p.1) (L (.kstr "index"))
        (by rw [hinv]; rw [if_pos hidx]), if_pos hidx, if_pos rfl]
    · rw [dget?_dappend_ne acc _ (keyToVal p.1) k hki, hinv, if_neg hki]
      by_cases hm : k ∈ keys0
      · rw [if_pos hm, if_pos hm, List.append_nil]
      · rw [if_neg hm, if_neg hm]
  intro k
  by_cases hmem : k ∈ keys
  · have hk0 : k ∈ keys0 := hsub k hmem
    rw [fold_dappend_mem _ keys _ k
        (L k ++ (if k = .kstr "index" then [keyToVal p.1] else []))
        hmem hk (by rw [h1 k, if_pos hk0]), if_pos hk0]
    unfold pivotContrib
    rw [if_pos hmem, List.append_assoc]
  · rw [fold_dappend_not_mem _ keys _ k hmem, h1 k]
    unfold pivotContrib
    rw [if_neg hmem, List.append_nil]

theorem pass2_go (keys keys0 : List Key) (hk : keys.Nodup)
    (hsub : ∀ k ∈ keys, k ∈ keys0) (hidx : Key.kstr "index" ∈ keys0) :
    ∀ (qs : List (Key × List (Key × Val))) (acc : Dict)
      (L : Key → List Val),
      (∀ k, dget? acc k =
        if k ∈ keys0 then some (.vlist (L k)) else none) →
      ∀ k, dget? (qs.foldl (fun acc p =>
          keys.foldl (fun a k => dappend a k ((dget? p.2 k).getD .vnone))
            (dappend acc (.kstr "index") (keyToVal p.1))) acc) k =
        if k ∈ keys0 then
          some (.vlist (L k ++ qs.flatMap (pivotContrib keys k)))
        else none := by
  intro qs
  induction qs with
  | nil =>
    intro acc L hinv k
    rw [List.foldl_nil, hinv k]
    by_cases hm : k ∈ keys0
    · rw [if_pos hm, if_pos hm]
      simp
    · rw [if_neg hm, if_neg hm]
  | cons q qs ih =>
    intro acc L hinv k
    rw [List.foldl_cons]
    have hstep := pass2_step keys keys0 hk hsub hidx q acc L hinv
    rw [ih _ (fun k => L k ++ pivotContrib keys k q) hstep k]
    by_cases hm : k ∈ keys0
    · rw [if_pos hm, if_pos hm]
      simp [List.append_assoc]
    · rw [if_neg hm, if_neg hm]

/-- The full characterization of the pivoted dict: for every key in
    `pivotKeys` the list of per-object contributions, in object order;
    nothing for any other key. -/
theorem pivot_char (ps : List (Key × List (Key × Val))) (k : Key) :
    dget? (transform_properties_core ps) k =
      if k ∈ pivotKeys ps then
        some (.vlist (ps.flatMap (pivotContrib (observedKeys ps) k)))
      else none := by
  obtain ⟨hvals, hnd, _⟩ := buildEmptyLists_char ps
  have hvals0 : ∀ q ∈ dset (buildEmptyLists ps) (.kstr "index") (.vlist []),
      q.2 = Val.vlist [] :=
    vals_dset _ _ _ hvals
  have hinv : ∀ k, dget? (dset (buildEmptyLists ps) (.kstr "index")
      (.vlist [])) k =
      if k ∈ pivotKeys ps then some (.vlist []) else none := by
    intro k
    by_cases hm : k ∈ pivotKeys ps
    · rw [if_pos hm]
      have hs : (dget? (dset (buildEmptyLists ps) (.kstr "index")
          (.vlist [])) k).isSome = true :=
        (dget?_isSome_iff_mem _ k).mpr hm
      cases hd : dget? (dset (buildEmptyLists ps) (.kstr "index")
          (.vlist [])) k with
      | none => rw [hd] at hs; simp at hs
      | some v => rw [dget?_of_vals _ k v _ hvals0 hd]
    · rw [if_neg hm]
      cases hd : dget? (dset (buildEmptyLists ps) (.kstr "index")
          (.vlist [])) k with
      | none => rfl
      | some v =>
        exact absurd ((dget?_isSome_iff_mem _ k).mp (by rw [hd]; rfl)) hm
  have hidx : Key.kstr "index" ∈ pivotKeys ps :=
    (dget?_isSome_iff_mem _ _).mp (by rw [dget?_dset_self]; rfl)
  have hsub : ∀ k ∈ observedKeys ps, k ∈ pivotKeys ps := by
    intro k hk
    unfold pivotKeys
    rw [keys_dset]
    unfold observedKeys at hk
    by_cases hm : Key.kstr "index" ∈ (buildEmptyLists ps).map Prod.fst
    · rw [if_pos hm]; exact hk
    · rw [if_neg hm]; exact List.mem_append_left _ hk
  have hmain := pass2_go (observedKeys ps) (pivotKeys ps) hnd hsub hidx ps _ _
    hinv k
  show dget? (ps.foldl
      (fun acc p =>
        (observedKeys ps).foldl
          (fun a k => dappend a k ((dget? p.2 k).getD Val.vnone))
          (dappend acc (Key.kstr "index") (keyToVal p.1)))
      (dset (buildEmptyLists ps) (.kstr "index") (.vlist []))) k =
    if k ∈ pivotKeys ps then
      some (.vlist (ps.flatMap (pivotContrib (observedKeys ps) k)))
    else none
  rw [hmain]
  by_cases hm : k ∈ pivotKeys ps
  · rw [if_pos hm, if_pos hm]
    simp
  · rw [if_neg hm, if_neg hm]

theorem keys_fold_dappend (vals : Key → Val) :
    ∀ (ks : List Key) (a : Dict),
      ((ks.foldl (fun a k => dappend a k (vals k)) a)).map Prod.fst =
        a.map Prod.fst := by
  intro ks
  induction ks with
  | nil => intro a; rfl
  | cons k ks ih =>
    intro a
    rw [List.foldl_cons, ih, keys_dappend]

theorem keys_transform_properties_core
    (ps : List (Key × List (Key × Val))) :
    (transform_properties_core ps).map Prod.fst = pivotKeys ps := by
  show (ps.foldl
      (fun acc p =>
        (observedKeys ps).foldl
          (fun a k => dappend a k ((dget? p.2 k).getD Val.vnone))
          (dappend acc (Key.kstr "index") (keyToVal p.1)))
      (dset (buildEmptyLists ps) (.kstr "index") (.vlist []))).map
      Prod.fst = pivotKeys ps
  suffices h : ∀ (qs : List (Key × List (Key × Val))) (acc : Dict),
      ((qs.foldl (fun acc p =>
        (observedKeys ps).foldl
          (fun a k => dappend a k ((dget? p.2 k).getD Val.vnone))
          (dappend acc (Key.kstr "index") (keyToVal p.1))) acc)).map
        Prod.fst = acc.map Prod.fst by
    rw [h ps _]
    rfl
  intro qs
  induction qs with
  | nil => intro acc; rfl
  | cons q qs ih =>
    intro acc
    rw [List.foldl_cons, ih, keys_fold_dappend, keys_dappend]

theorem flatMap_single {α β : Type} (f : α → β) (ps : List α) :
    ps.flatMap (fun p => [f p]) = ps.map f := by
  induction ps with
  | nil => rfl
  | cons p ps ih => simp [ih]

theorem flatMap_pair_length {α β : Type} (f g : α → β) (ps : List α) :
    (ps.flatMap (fun p => [f p, g p])).length = 2 * ps.length := by
  induction ps with
  | nil => rfl
  | cons p ps ih =>
    simp only [List.flatMap_cons, List.length_append, ih, List.length_cons]
    simp
    omega

/- ## Step-preservation lemmas for the per-node pipeline -/

theorem transform_scale_other (nmd md₀ : Dict) (ch : Option Nat)
    (shape : List Nat) (md : Dict)
    (h : transform_scale nmd md₀ ch shape = .ok md) :
    ∀ x, x ≠ Key.kstr "scale" → dget? md x = dget? md₀ x := by
  rcases transform_scale_cases nmd md₀ ch shape md h with rfl | ⟨_, _, ts, _, _, _, hl⟩
  · exact fun x _ => rfl
  · exact (scaleLoop_char ch shape ts md₀ md hl).2

theorem inherit_scale_other (md : Dict) (results : List LayerData) :
    ∀ x, x ≠ Key.kstr "scale" →
      dget? (inherit_scale md results) x = dget? md x := by
  intro x hx
  unfold inherit_scale
  by_cases hm : dmem md (.kstr "scale")
  · simp [hm]
  · simp only [hm, Bool.not_eq_true, if_pos]
    cases results with
    | nil => simp
    | cons r rest =>
      cases hr : dget? r.metadata (.kstr "scale") with
      | none => simp [hr]
      | some v => simp [hr, dget?_dset_ne md _ v x hx]

theorem addProps_ok_other (nodeMd md md' : Dict)
    (h : addProps nodeMd md = .ok md') :
    ∀ x, x ≠ Key.kstr "properties" → dget? md' x = dget? md x := by
  intro x hx
  unfold addProps at h
  cases hp : transform_properties (dget? nodeMd (.kstr "properties")) with
  | error e => rw [hp] at h; cases h
  | ok o =>
    rw [hp] at h
    cases o with
    | none =>
      injection h with h'
      rw [← h']
    | some props =>
      injection h with h'
      rw [← h', dget?_dset_ne md _ _ x hx]

theorem wrapColormaps_ok_other (md md' : Dict)
    (h : wrapColormaps md = .ok md') :
    ∀ x, x ≠ Key.kstr "colormap" → dget? md' x = dget? md x := by
  intro x hx
  unfold wrapColormaps at h
  cases hc : dget? md (.kstr "colormap") with
  | none =>
    simp only [hc] at h
    injection h with h'
    rw [← h']
  | some v =>
    cases v with
    | vlist xs =>
      simp only [hc] at h
      injection h with h'
      rw [← h', dget?_dset_ne md _ _ x hx]
    | vstr s =>
      simp only [hc] at h
      by_cases hs : s.isEmpty = true
      · rw [if_pos hs] at h
        injection h with h'
        rw [← h']
      · rw [if_neg hs] at h
        cases h
    | vtuple xs =>
      simp only [hc] at h
      by_cases ht : xs.all (fun x => match x with
        | .vcmap _ => true
        | _ => false) = true
      · rw [if_pos ht] at h
        injection h with h'
        rw [← h']
      · rw [if_neg ht] at h
        cases h
    | vdict d =>
      simp only [hc] at h
      by_cases hd : d.isEmpty = true
      · rw [if_pos hd] at h
        injection h with h'
        rw [← h']
      · rw [if_neg hd] at h
        cases h
    | vnone => simp only [hc] at h; cases h
    | vbool b => simp only [hc] at h; cases h
    | vint n => simp only [hc] at h; cases h
    | vcmap w => simp only [hc] at h; cases h

/- ## Per-node derivation lemmas -/

theorem deriveNode_axes_error (node : Node) (dat : List Ary)
    (results : List LayerData) (e : PyErr)
    (h : get_channel_axis node.metadata = .error e) :
    deriveNode node dat results =
      ([.transforming, .errorReadingAxes], .error e) := by
  unfold deriveNode
  rw [h]

theorem deriveNode_ok_inv (node : Node) (dat : List Ary)
    (results : List LayerData) (lg : List LogEvent) (n' : Node)
    (rv : LayerData)
    (h : deriveNode node dat results = (lg, .ok (n', rv))) :
    ∃ ch md0,
      get_channel_axis node.metadata = .ok ch ∧
      transform_scale node.metadata [] ch ((dat.headD ⟨[]⟩).shape) =
        .ok md0 ∧
      ((node.isLabel = true ∧ ∃ dat' md3,
          squeezeStep dat ch = .ok dat' ∧
          addProps node.metadata
            (copyKeys node.metadata (inherit_scale md0 results)) =
            .ok md3 ∧
          n' = node ∧ rv = ⟨dat', md3, "labels"⟩ ∧
          lg = [.transforming, .transformed]) ∨
       (node.isLabel = false ∧ ∃ nmd md3,
          wrapColormaps node.metadata = .ok nmd ∧
          addProps nmd (imageCopy nmd (inherit_scale md0 results) ch) =
            .ok md3 ∧
          n' = { node with metadata := nmd } ∧ rv = ⟨dat, md3, "image"⟩ ∧
          lg = [.transforming, .debugMetadata, .transformed])) := by
  unfold deriveNode at h
  cases hch : get_channel_axis node.metadata with
  | error e => simp only [hch] at h; simp at h
  | ok ch =>
    simp only [hch] at h
    cases hts : transform_scale node.metadata [] ch
        ((dat.headD ⟨[]⟩).shape) with
    | error e => simp only [hts] at h; simp at h
    | ok md0 =>
      simp only [hts] at h
      refine ⟨ch, md0, rfl, hts, ?_⟩
      by_cases hL : node.isLabel
      · rw [if_pos hL] at h
        left
        refine ⟨hL, ?_⟩
        cases hsq : squeezeStep dat ch with
        | error e => simp only [hsq] at h; simp at h
        | ok dat' =>
          simp only [hsq] at h
          cases hap : addProps node.metadata
              (copyKeys node.metadata (inherit_scale md0 results)) with
          | error e => simp only [hap] at h; simp at h
          | ok md3 =>
            simp only [hap] at h
            injection h with hA hBC
            injection hBC with hBC'
            injection hBC' with hB hC
            exact ⟨dat', md3, rfl, rfl, hB.symm, hC.symm, hA.symm⟩
      · rw [if_neg hL] at h
        right
        refine ⟨Bool.not_eq_true node.isLabel ▸ hL, ?_⟩
        cases hw : wrapColormaps node.metadata with
        | error e => simp only [hw] at h; simp at h
        | ok nmd =>
          simp only [hw] at h
          cases hap : addProps nmd
              (imageCopy nmd (inherit_scale md0 results) ch) with
          | error e => simp only [hap] at h; simp at h
          | ok md3 =>
            simp only [hap] at h
            injection h with hA hBC
            injection hBC with hBC'
            injection hBC' with hB hC
            exact ⟨nmd, md3, rfl, hap, hB.symm, hC.symm, hA.symm⟩

theorem np_squeeze_shape (a a' : Ary) (c : Nat)
    (h : np_squeeze a c = .ok a') : a'.shape = a.shape.eraseIdx c := by
  unfold np_squeeze at h
  split at h
  · split at h
    · injection h with h'
      rw [← h']
    · cases h
  · cases h

theorem squeezeAll_shape (c : Nat) :
    ∀ (dat out : List Ary), squeezeAll dat c = .ok out →
      out.length = dat.length ∧
      ∀ i (hi : i < out.length) (hj : i < dat.length),
        (out.get ⟨i, hi⟩).shape = ((dat.get ⟨i, hj⟩).shape).eraseIdx c := by
  intro dat
  induction dat with
  | nil =>
    intro out h
    injection h with h'
    subst h'
    exact ⟨rfl, fun i hi _ => absurd hi (by simp)⟩
  | cons a as ih =>
    intro out h
    unfold squeezeAll at h
    cases hs : np_squeeze a c with
    | error e => simp [hs] at h
    | ok a' =>
      simp only [hs] at h
      cases ht : squeezeAll as c with
      | error e => simp [ht] at h
      | ok as' =>
        simp only [ht] at h
        injection h with h'
        subst h'
        obtain ⟨hl, hsh⟩ := ih as' ht
        refine ⟨by simp [hl], fun i hi hj => ?_⟩
        cases i with
        | zero => exact np_squeeze_shape a a' c hs
        | succ i =>
          exact hsh i (Nat.lt_of_succ_lt_succ hi) (Nat.lt_of_succ_lt_succ hj)

theorem scale_not_display_key : Key.kstr "scale" ∉ METADATA_KEYS := by decide

theorem deriveNode_ok_scale (node : Node) (dat : List Ary)
    (results : List LayerData) (lg : List LogEvent) (n' : Node)
    (rv : LayerData)
    (h : deriveNode node dat results = (lg, .ok (n', rv))) :
    ∃ ch md0,
      get_channel_axis node.metadata = .ok ch ∧
      transform_scale node.metadata [] ch ((dat.headD ⟨[]⟩).shape) =
        .ok md0 ∧
      dget? rv.metadata (.kstr "scale") =
        dget? (inherit_scale md0 results) (.kstr "scale") := by
  obtain ⟨ch, md0, hch, hts, hbr⟩ := deriveNode_ok_inv _ _ _ _ _ _ h
  refine ⟨ch, md0, hch, hts, ?_⟩
  have hsp : Key.kstr "scale" ≠ Key.kstr "properties" := by decide
  rcases hbr with ⟨_, dat', md3, _, hap, _, hrv, _⟩ |
    ⟨_, nmd, md3, _, hap, _, hrv, _⟩
  · rw [hrv]
    show dget? md3 (.kstr "scale") = _
    rw [addProps_ok_other _ _ _ hap _ hsp,
      dget?_copyKeys_not_mem _ _ _ scale_not_display_key]
  · rw [hrv]
    show dget? md3 (.kstr "scale") = _
    rw [addProps_ok_other _ _ _ hap _ hsp]
    cases ch with
    | some c =>
      show dget? (copyKeys nmd (dset (inherit_scale md0 results)
        (.kstr "channel_axis") (.vint c))) (.kstr "scale") = _
      rw [dget?_copyKeys_not_mem _ _ _ scale_not_display_key,
        dget?_dset_ne _ _ _ _ (by decide)]
    | none =>
      show dget? (copyKeysFirst nmd (inherit_scale md0 results))
        (.kstr "scale") = _
      rw [dget?_copyKeysFirst_not_mem _ _ _ scale_not_display_key]

theorem inherit_scale_first (md : Dict) (r0 : LayerData)
    (rest : List LayerData) (hno : dget? md (.kstr "scale") = none) :
    dget? (inherit_scale md (r0 :: rest)) (.kstr "scale") =
      dget? r0.metadata (.kstr "scale") := by
  unfold inherit_scale
  have hm : dmem md (.kstr "scale") = false := by
    unfold dmem
    rw [hno]
    rfl
  cases hr : dget? r0.metadata (.kstr "scale") with
  | some v => simp [hm, hr, dget?_dset_self]
  | none => simp [hm, hr, hno]

theorem inherit_scale_kept (md : Dict) (results : List LayerData) (s : Val)
    (hs : dget? md (.kstr "scale") = some s) :
    dget? (inherit_scale md results) (.kstr "scale") = some s := by
  unfold inherit_scale
  have hm : dmem md (.kstr "scale") = true := by
    unfold dmem
    rw [hs]
    rfl
  simp [hm, hs]

/- ## Pipeline lemmas -/

/-- The emission relation of the pipeline loop: starting from the already
    accumulated `results`, the node list contributes `tail` — skipped
    nodes contribute nothing, every non-empty node contributes exactly the
    record its derivation produces, in node order. -/
inductive Emits : List Node → List LayerData → List LayerData → Prop where
  | nil : ∀ results, Emits [] results []
  | skip : ∀ node rest results tail,
      nonEmptyNode node = false →
      Emits rest results tail → Emits (node :: rest) results tail
  | emit : ∀ node dat rest results tail lg n' rv,
      node.data = some dat → 1 ≤ dat.length →
      deriveNode node dat results = (lg, .ok (n', rv)) →
      Emits rest (results ++ [rv]) tail →
      Emits (node :: rest) results (rv :: tail)

theorem fGo_emits :
    ∀ (nodes : List Node) (results : List LayerData)
      (logs lg' : List LogEvent) (rs : List LayerData),
      fGo nodes results logs = (lg', .ok rs) →
      ∃ tail, rs = results ++ tail ∧ Emits nodes results tail ∧
        tail.length = (nodes.filter nonEmptyNode).length := by
  intro nodes
  induction nodes with
  | nil =>
    intro results logs lg' rs h
    unfold fGo at h
    injection h with h1 h2
    injection h2 with h2'
    exact ⟨[], by simp [← h2'], Emits.nil results, by simp⟩
  | cons node rest ih =>
    intro results logs lg' rs h
    unfold fGo at h
    cases hd : node.data with
    | none =>
      simp only [hd] at h
      obtain ⟨tail, h1, h2, h3⟩ := ih _ _ _ _ h
      have hne : nonEmptyNode node = false := by
        unfold nonEmptyNode
        rw [hd]
      refine ⟨tail, h1, Emits.skip node rest results tail hne h2, ?_⟩
      rw [h3, List.filter_cons_of_neg (by simp [hne])]
    | some dat =>
      simp only [hd] at h
      by_cases hlen : dat.length < 1
      · rw [if_pos hlen] at h
        obtain ⟨tail, h1, h2, h3⟩ := ih _ _ _ _ h
        have hne : nonEmptyNode node = false := by
          unfold nonEmptyNode
          rw [hd]
          show decide (1 ≤ dat.length) = false
          simp only [decide_eq_false_iff_not]
          omega
        refine ⟨tail, h1, Emits.skip node rest results tail hne h2, ?_⟩
        rw [h3, List.filter_cons_of_neg (by simp [hne])]
      · rw [if_neg hlen] at h
        cases hdr : deriveNode node dat results with
        | mk dlogs res =>
          cases res with
          | error e =>
            rw [hdr] at h
            simp at h
          | ok pr =>
            rw [hdr] at h
            obtain ⟨tail, h1, h2, h3⟩ := ih _ _ _ _ h
            have hne : nonEmptyNode node = true := by
              unfold nonEmptyNode
              rw [hd]
              simp
              omega
            refine ⟨pr.2 :: tail, ?_, ?_, ?_⟩
            · rw [h1]
              simp
            · exact Emits.emit node dat rest results tail dlogs pr.1 pr.2
                hd (by omega) (by rw [hdr]) h2
            · rw [List.filter_cons_of_pos hne]
              simp [h3]

theorem findIdxVal_none (ts : List Val) (s : String)
    (h : Val.vstr s ∉ ts) : findIdxVal ts (.vstr s) = none := by
  unfold findIdxVal
  rw [List.findIdx?_eq_none_iff]
  intro x hx
  cases hb : Val.beq (.vstr s) x
  · rfl
  · exact absurd (by
      rw [← (beq_vstr_iff s x).1 hb]
      exact hx) h

theorem get_channel_axis_none (md : Dict) (av : Val) (axs ts : List Val)
    (h1 : dget? md (.kstr "axes") = some av)
    (h2 : toIterable av = .ok axs)
    (h3 : axs.mapM (fun a => pySubscript a (.vstr "type")) = .ok ts)
    (h4 : Val.vstr "channel" ∉ ts) :
    get_channel_axis md = .ok none := by
  unfold get_channel_axis
  simp only [h1, h2, h3]
  rw [findIdxVal_none ts _ h4]

theorem index_mem_pivotKeys (ps : List (Key × List (Key × Val))) :
    Key.kstr "index" ∈ pivotKeys ps :=
  (dget?_isSome_iff_mem _ _).mp (by rw [dget?_dset_self]; rfl)

theorem observed_sub_pivotKeys (ps : List (Key × List (Key × Val))) :
    ∀ k ∈ observedKeys ps, k ∈ pivotKeys ps := by
  intro k hk
  unfold pivotKeys
  rw [keys_dset]
  unfold observedKeys at hk
  by_cases hm : Key.kstr "index" ∈ (buildEmptyLists ps).map Prod.fst
  · rw [if_pos hm]
    exact hk
  · rw [if_neg hm]
    exact List.mem_append_left _ hk

theorem mem_pivotKeys_cases (ps : List (Key × List (Key × Val))) (k : Key)
    (h : k ∈ pivotKeys ps) : k = Key.kstr "index" ∨ k ∈ observedKeys ps := by
  unfold pivotKeys at h
  rw [keys_dset] at h
  unfold observedKeys
  by_cases hm : Key.kstr "index" ∈ (buildEmptyLists ps).map Prod.fst
  · rw [if_pos hm] at h
    exact Or.inr h
  · rw [if_neg hm] at h
    rcases List.mem_append.mp h with h | h
    · exact Or.inr h
    · exact Or.inl (List.mem_singleton.mp h)

theorem metadata_keys_ne_properties :
    ∀ x ∈ METADATA_KEYS, x ≠ Key.kstr "properties" := by decide

theorem metadata_keys_ne_scale :
    ∀ x ∈ METADATA_KEYS, x ≠ Key.kstr "scale" := by decide

theorem transform_scale_from_empty (nmd : Dict) (ch : Option Nat)
    (shape : List Nat) (md : Dict)
    (h : transform_scale nmd [] ch shape = .ok md) :
    ∀ x, x ≠ Key.kstr "scale" → dget? md x = none := by
  intro x hx
  rw [transform_scale_other nmd [] ch shape md h x hx]
  rfl

/- ## Claim theorems -/

/-- C1: invoking the deferred reader function on a node sequence that
    completes without an exception emits exactly one
    (data, metadata, layer-kind) triple per node whose data is present and
    has at least one level, in node iteration order (the `Emits`
    relation), so the output list length equals the count of non-empty
    nodes; nodes with absent or empty data contribute no record. -/
theorem c1_one_record_per_nonempty_node (nodes : List Node)
    (lg : List LogEvent) (rs : List LayerData)
    (h : transform_f nodes = (lg, .ok rs)) :
    rs.length = (nodes.filter nonEmptyNode).length ∧ Emits nodes [] rs := by
  obtain ⟨tail, h1, h2, h3⟩ := fGo_emits nodes [] [] lg rs h
  rw [List.nil_append] at h1
  subst h1
  exact ⟨h3, h2⟩

def demoAxesSpace : Val := .vdict [(.kstr "type", .vstr "space")]

def demoEmptyNode : Node := { data := none, metadata := [], isLabel := false }

def demoImageNode : Node :=
  { data := some [⟨[4]⟩],
    metadata := [(.kstr "axes", .vlist [demoAxesSpace])],
    isLabel := false }

theorem c1_one_record_per_nonempty_node_witness :
    transform_f [demoEmptyNode, demoImageNode] =
      ([.skippingNonData, .transforming, .debugMetadata, .transformed],
       .ok [⟨[⟨[4]⟩], [], "image"⟩]) ∧
    ([(⟨[⟨[4]⟩], [], "image"⟩ : LayerData)].length =
      ([demoEmptyNode, demoImageNode].filter nonEmptyNode).length ∧
     Emits [demoEmptyNode, demoImageNode] [] [⟨[⟨[4]⟩], [], "image"⟩]) :=
  ⟨rfl, c1_one_record_per_nonempty_node [demoEmptyNode, demoImageNode] _ _ rfl⟩

/-- C7: any failure while reading the axes metadata of a node with
    non-empty data — the `axes` key missing included — is logged as the
    axis-reading error and propagated, aborting the whole pass no matter
    how many nodes remain; whereas well-formed axes whose type tags
    contain no `"channel"` yield an absent channel axis as a normal
    result. -/
theorem c7_axes_error_fatal (node : Node) (dat : List Ary)
    (rest : List Node) (results : List LayerData) (logs : List LogEvent)
    (e : PyErr) (md : Dict) (av : Val) (axs ts : List Val) :
    (node.data = some dat → 1 ≤ dat.length →
      get_channel_axis node.metadata = .error e →
      fGo (node :: rest) results logs =
        (logs ++ [.transforming, .errorReadingAxes], .error e) ∧
      LogEvent.errorReadingAxes ∈
        [LogEvent.transforming, LogEvent.errorReadingAxes]) ∧
    (dget? md (.kstr "axes") = some av → toIterable av = .ok axs →
      axs.mapM (fun a => pySubscript a (.vstr "type")) = .ok ts →
      Val.vstr "channel" ∉ ts →
      get_channel_axis md = .ok none) := by
  constructor
  · intro hd hlen he
    refine ⟨?_, by decide⟩
    unfold fGo
    simp only [hd]
    rw [if_neg (by omega), deriveNode_axes_error node dat results e he]
  · intro h1 h2 h3 h4
    exact get_channel_axis_none md av axs ts h1 h2 h3 h4

def demoNoAxesNode : Node :=
  { data := some [⟨[4]⟩], metadata := [], isLabel := false }

theorem c7_axes_error_fatal_witness :
    (fGo [demoNoAxesNode, demoImageNode] [] [] =
      ([] ++ [.transforming, .errorReadingAxes], .error .keyError) ∧
     LogEvent.errorReadingAxes ∈
       [LogEvent.transforming, LogEvent.errorReadingAxes]) ∧
    get_channel_axis demoImageNode.metadata = .ok none := by
  have h := c7_axes_error_fatal demoNoAxesNode [⟨[4]⟩] [demoImageNode] [] []
    .keyError demoImageNode.metadata (.vlist [demoAxesSpace])
    [demoAxesSpace] [.vstr "space"]
  exact ⟨h.1 rfl (by decide) rfl,
    h.2 rfl rfl rfl (by simp)⟩

/-- C5: a node classified as a label variant is emitted with layer-kind
    `"labels"`, every recognized display key present in its metadata is
    copied verbatim into the output metadata, and when a channel axis was
    detected that axis is squeezed out of every data level, so the emitted
    label data never retains the declared channel dimension in its
    shape. -/
theorem c5_label_nodes (node : Node) (dat : List Ary)
    (results : List LayerData) (lg : List LogEvent) (n' : Node)
    (rv : LayerData) (hL : node.isLabel = true)
    (h : deriveNode node dat results = (lg, .ok (n', rv))) :
    rv.layer_type = "labels" ∧
    (∀ x ∈ METADATA_KEYS, ∀ v, dget? node.metadata x = some v →
      dget? rv.metadata x = some v) ∧
    (∀ c, get_channel_axis node.metadata = .ok (some c) →
      squeezeAll dat c = .ok rv.data ∧
      rv.data.length = dat.length ∧
      ∀ i (hi : i < rv.data.length) (hj : i < dat.length),
        (rv.data.get ⟨i, hi⟩).shape =
          ((dat.get ⟨i, hj⟩).shape).eraseIdx c) := by
  obtain ⟨ch, md0, hch, hts, hbr⟩ := deriveNode_ok_inv _ _ _ _ _ _ h
  rcases hbr with ⟨_, dat', md3, hsq, hap, _, hrv, _⟩ | ⟨hL2, _⟩
  · subst hrv
    refine ⟨rfl, ?_, ?_⟩
    · intro x hx v hv
      show dget? md3 x = some v
      rw [addProps_ok_other _ _ _ hap x (metadata_keys_ne_properties x hx),
        dget?_copyKeys_mem _ _ x hx, hv]
    · intro c hc
      rw [hch] at hc
      injection hc with hc'
      subst hc'
      have hsq' : squeezeAll dat c = .ok dat' := hsq
      obtain ⟨hl, hsh⟩ := squeezeAll_shape c dat dat' hsq'
      exact ⟨hsq', hl, hsh⟩
  · rw [hL] at hL2
    cases hL2

def demoLabelNode : Node :=
  { data := some [⟨[1, 4]⟩, ⟨[1, 2]⟩],
    metadata := [(.kstr "axes",
                  .vlist [.vdict [(.kstr "type", .vstr "channel")],
                          demoAxesSpace]),
                 (.kstr "name", .vlist [.vstr "lab"])],
    isLabel := true }

theorem c5_label_nodes_witness :
    deriveNode demoLabelNode [⟨[1, 4]⟩, ⟨[1, 2]⟩] [] =
      ([.transforming, .transformed],
       .ok (demoLabelNode,
            ⟨[⟨[4]⟩, ⟨[2]⟩], [(.kstr "name", .vlist [.vstr "lab"])],
             "labels"⟩)) ∧
    ((⟨[⟨[4]⟩, ⟨[2]⟩], [(.kstr "name", .vlist [.vstr "lab"])],
       "labels"⟩ : LayerData).layer_type = "labels" ∧
     (∀ x ∈ METADATA_KEYS, ∀ v, dget? demoLabelNode.metadata x = some v →
       dget? (⟨[⟨[4]⟩, ⟨[2]⟩], [(.kstr "name", .vlist [.vstr "lab"])],
         "labels"⟩ : LayerData).metadata x = some v) ∧
     (∀ c, get_channel_axis demoLabelNode.metadata = .ok (some c) →
       squeezeAll [⟨[1, 4]⟩, ⟨[1, 2]⟩] c =
         .ok (⟨[⟨[4]⟩, ⟨[2]⟩], [(.kstr "name", .vlist [.vstr "lab"])],
           "labels"⟩ : LayerData).data ∧
       (⟨[⟨[4]⟩, ⟨[2]⟩], [(.kstr "name", .vlist [.vstr "lab"])],
         "labels"⟩ : LayerData).data.length =
         ([⟨[1, 4]⟩, ⟨[1, 2]⟩] : List Ary).length ∧
       ∀ i (hi : i < (⟨[⟨[4]⟩, ⟨[2]⟩],
           [(.kstr "name", .vlist [.vstr "lab"])],
           "labels"⟩ : LayerData).data.length)
         (hj : i < ([⟨[1, 4]⟩, ⟨[1, 2]⟩] : List Ary).length),
         (((⟨[⟨[4]⟩, ⟨[2]⟩], [(.kstr "name", .vlist [.vstr "lab"])],
           "labels"⟩ : LayerData).data.get ⟨i, hi⟩)).shape =
           ((([⟨[1, 4]⟩, ⟨[1, 2]⟩] : List Ary).get ⟨i, hj⟩).shape).eraseIdx
             c)) :=
  ⟨rfl, c5_label_nodes demoLabelNode [⟨[1, 4]⟩, ⟨[1, 2]⟩] [] _ _ _ rfl rfl⟩

/-- C8: for an image node without a detected channel axis, each
    recognized display key present in the (colormap-normalized) node
    metadata is stored in the output metadata as its first element, and
    when that first-element extraction fails for any reason the key is
    silently omitted; the failure never propagates — given that every
    other step succeeds, the node still yields a record. -/
theorem c8_single_channel_unwrap (node : Node) (dat : List Ary)
    (results : List LayerData) (md0 nmd : Dict) (pOpt : Option Dict)
    (hL : node.isLabel = false)
    (hch : get_channel_axis node.metadata = .ok none)
    (hts : transform_scale node.metadata [] none
      ((dat.headD ⟨[]⟩).shape) = .ok md0)
    (hw : wrapColormaps node.metadata = .ok nmd)
    (hp : transform_properties (dget? nmd (.kstr "properties")) =
      .ok pOpt) :
    ∃ lg n' rv, deriveNode node dat results = (lg, .ok (n', rv)) ∧
      ∀ x ∈ METADATA_KEYS,
        dget? rv.metadata x =
          match dget? nmd x with
          | some v =>
            match pySubscript v (.vint 0) with
            | .ok v0 => some v0
            | .error _ => none
          | none => none := by
  have hap : ∃ md3, addProps nmd
      (copyKeysFirst nmd (inherit_scale md0 results)) = .ok md3 ∧
      ∀ x, x ≠ Key.kstr "properties" →
        dget? md3 x =
          dget? (copyKeysFirst nmd (inherit_scale md0 results)) x := by
    unfold addProps
    rw [hp]
    cases pOpt with
    | none => exact ⟨_, rfl, fun x hx => rfl⟩
    | some props =>
      exact ⟨_, rfl, fun x hx => dget?_dset_ne _ _ _ x hx⟩
  obtain ⟨md3, hap3, hother⟩ := hap
  have hdn : deriveNode node dat results =
      ([.transforming, .debugMetadata, .transformed],
       .ok ({ node with metadata := nmd },
            ⟨dat, md3, "image"⟩)) := by
    unfold deriveNode
    simp only [hch, hts, hL, Bool.false_eq_true, if_false, hw]
    simp only [show imageCopy nmd (inherit_scale md0 results) none =
        copyKeysFirst nmd (inherit_scale md0 results) from rfl, hap3]
  refine ⟨_, _, _, hdn, ?_⟩
  intro x hx
  show dget? md3 x = _
  rw [hother x (metadata_keys_ne_properties x hx),
    dget?_copyKeysFirst_mem nmd _ x hx]
  have hmd1 : dget? (inherit_scale md0 results) x = none := by
    rw [inherit_scale_other md0 results x (metadata_keys_ne_scale x hx)]
    exact transform_scale_from_empty _ _ _ _ hts x
      (metadata_keys_ne_scale x hx)
  simp only [hmd1]

def demoSingleChannelNode : Node :=
  { data := some [⟨[4]⟩],
    metadata := [(.kstr "axes", .vlist [demoAxesSpace]),
                 (.kstr "contrast_limits",
                  .vlist [.vlist [.vint 0, .vint 255]]),
                 (.kstr "name", .vlist [])],
    isLabel := false }

theorem c8_single_channel_unwrap_witness :
    (∃ lg n' rv,
      deriveNode demoSingleChannelNode [⟨[4]⟩] [] = (lg, .ok (n', rv)) ∧
      ∀ x ∈ METADATA_KEYS,
        dget? rv.metadata x =
          match dget? demoSingleChannelNode.metadata x with
          | some v =>
            match pySubscript v (.vint 0) with
            | .ok v0 => some v0
            | .error _ => none
          | none => none) ∧
    dget? demoSingleChannelNode.metadata (.kstr "contrast_limits") =
      some (.vlist [.vlist [.vint 0, .vint 255]]) ∧
    dget? demoSingleChannelNode.metadata (.kstr "name") =
      some (.vlist []) := by
  refine ⟨?_, rfl, rfl⟩
  have h := c8_single_channel_unwrap demoSingleChannelNode [⟨[4]⟩] []
    [] demoSingleChannelNode.metadata none rfl rfl rfl rfl rfl
  exact h

/-- C9 (amended): the derivation pass never mutates a label node, and for
    an image node it mutates node metadata only at the `colormap` entry,
    which is normalized in place (each non-Colormap item wrapped); node
    data and every other metadata entry are left untouched, with all other
    derived structures built into the fresh output metadata. -/
theorem c9_mutation_only_colormap (node : Node) (dat : List Ary)
    (results : List LayerData) (lg : List LogEvent) (n' : Node)
    (rv : LayerData)
    (h : deriveNode node dat results = (lg, .ok (n', rv))) :
    n'.data = node.data ∧ n'.isLabel = node.isLabel ∧
    (node.isLabel = true → n' = node) ∧
    (node.isLabel = false →
      wrapColormaps node.metadata = .ok n'.metadata ∧
      (∀ x, x ≠ Key.kstr "colormap" →
        dget? n'.metadata x = dget? node.metadata x) ∧
      (∀ xs, dget? node.metadata (.kstr "colormap") = some (.vlist xs) →
        dget? n'.metadata (.kstr "colormap") =
          some (.vlist (xs.map wrapCm)))) := by
  obtain ⟨ch, md0, hch, hts, hbr⟩ := deriveNode_ok_inv _ _ _ _ _ _ h
  rcases hbr with ⟨hL, _, _, _, _, hn, _⟩ | ⟨hL, nmd, md3, hw, _, hn, _⟩
  · subst hn
    exact ⟨rfl, rfl, fun _ => rfl, fun hf => absurd hL (by rw [hf]; simp)⟩
  · subst hn
    refine ⟨rfl, by rw [hL], fun ht => absurd hL (by rw [ht]; simp),
      fun _ => ⟨hw, wrapColormaps_ok_other _ _ hw, ?_⟩⟩
    intro xs hxs
    show dget? nmd (.kstr "colormap") = _
    unfold wrapColormaps at hw
    rw [hxs] at hw
    injection hw with hw'
    rw [← hw', dget?_dset_self]

def cexMutNode : Node :=
  { data := some [⟨[4]⟩],
    metadata := [(.kstr "axes", .vlist [demoAxesSpace]),
                 (.kstr "colormap", .vlist [.vstr "red"])],
    isLabel := false }

/-- C9 counterexample: for a concrete image node carrying an unwrapped
    colormap spec, the pass returns the node with its `colormap` metadata
    entry rewritten in place to the wrapped Colormap object, so the node
    metadata after the pass differs from the metadata it entered with —
    the derivation is not read-only on node metadata. -/
theorem c9_mutation_cex :
    deriveNode cexMutNode [⟨[4]⟩] [] =
      ([.transforming, .debugMetadata, .transformed],
       .ok ({ cexMutNode with
              metadata := [(.kstr "axes", .vlist [demoAxesSpace]),
                           (.kstr "colormap",
                            .vlist [.vcmap (.vstr "red")])] },
            ⟨[⟨[4]⟩], [(.kstr "colormap", .vcmap (.vstr "red"))],
             "image"⟩)) ∧
    ([(.kstr "axes", .vlist [demoAxesSpace]),
      (.kstr "colormap", .vlist [.vcmap (.vstr "red")])] : Dict) ≠
      cexMutNode.metadata := by
  refine ⟨rfl, fun heq => ?_⟩
  have := congrArg (fun d => dget? d (.kstr "colormap")) heq
  simp [cexMutNode, dget?, demoAxesSpace] at this

def cexMutNodeAfter : Node :=
  { cexMutNode with
    metadata := [(.kstr "axes", .vlist [demoAxesSpace]),
                 (.kstr "colormap", .vlist [.vcmap (.vstr "red")])] }

theorem c9_mutation_only_colormap_witness :
    cexMutNodeAfter.data = cexMutNode.data ∧
    cexMutNodeAfter.isLabel = cexMutNode.isLabel ∧
    (cexMutNode.isLabel = true → cexMutNodeAfter = cexMutNode) ∧
    (cexMutNode.isLabel = false →
      wrapColormaps cexMutNode.metadata = .ok cexMutNodeAfter.metadata ∧
      (∀ x, x ≠ Key.kstr "colormap" →
        dget? cexMutNodeAfter.metadata x = dget? cexMutNode.metadata x) ∧
      (∀ xs, dget? cexMutNode.metadata (.kstr "colormap") =
          some (.vlist xs) →
        dget? cexMutNodeAfter.metadata (.kstr "colormap") =
          some (.vlist (xs.map wrapCm)))) :=
  c9_mutation_only_colormap cexMutNode [⟨[4]⟩] []
    [.transforming, .debugMetadata, .transformed] cexMutNodeAfter
    ⟨[⟨[4]⟩], [(.kstr "colormap", .vcmap (.vstr "red"))], "image"⟩ rfl

/-- C4: when scale extraction stores no `scale` entry for a node and the
    list of already-built records is non-empty, the node's emitted
    metadata carries exactly the first prior record's `scale` entry — a
    value-equal copy when the first record has one, and no entry at all
    when the first record lacks one, regardless of what any later prior
    record contains. -/
theorem c4_scale_inheritance (node : Node) (dat : List Ary)
    (r0 : LayerData) (rest : List LayerData) (lg : List LogEvent)
    (n' : Node) (rv : LayerData) (ch : Option Nat) (md0 : Dict)
    (hch : get_channel_axis node.metadata = .ok ch)
    (hts : transform_scale node.metadata [] ch
      ((dat.headD ⟨[]⟩).shape) = .ok md0)
    (hno : dget? md0 (.kstr "scale") = none)
    (h : deriveNode node dat (r0 :: rest) = (lg, .ok (n', rv))) :
    dget? rv.metadata (.kstr "scale") =
      dget? r0.metadata (.kstr "scale") := by
  obtain ⟨ch', md0', hch', hts', heq⟩ := deriveNode_ok_scale _ _ _ _ _ _ h
  rw [hch] at hch'
  injection hch' with hch''
  subst hch''
  rw [hts] at hts'
  injection hts' with hts''
  subst hts''
  rw [heq]
  exact inherit_scale_first md0 r0 rest hno

def demoPriorRecord : LayerData :=
  ⟨[⟨[4]⟩], [(.kstr "scale", .vtuple [.vint 2])], "image"⟩

def demoInheritNode : Node :=
  { data := some [⟨[4, 4]⟩],
    metadata := [(.kstr "axes", .vlist [demoAxesSpace, demoAxesSpace])],
    isLabel := false }

theorem c4_scale_inheritance_witness :
    dget? (⟨[⟨[4, 4]⟩], [(.kstr "scale", .vtuple [.vint 2])],
        "image"⟩ : LayerData).metadata (.kstr "scale") =
      dget? demoPriorRecord.metadata (.kstr "scale") :=
  c4_scale_inheritance demoInheritNode [⟨[4, 4]⟩] demoPriorRecord []
    [.transforming, .debugMetadata, .transformed] demoInheritNode
    ⟨[⟨[4, 4]⟩], [(.kstr "scale", .vtuple [.vint 2])], "image"⟩
    none [] rfl rfl rfl rfl

/-- C2 (amended): whenever `transform_scale` itself stores a `scale`
    entry (scales inherited from a prior record are excluded), that entry
    is the output of the last qualifying descriptor of the level-0
    transform list — no later descriptor qualifies — namely the tuple
    with one entry per dimension of the given shape that is not the
    channel axis, in dimension order, where each entry is the lookup of
    that dimension in the `scale_by_axis` dict built by zipping that
    descriptor's own `axisIndices` with its `scale`, defaulting to 1 for
    a dimension the descriptor does not cover; the tuple's length is the
    number of dimensions minus one exactly when a channel axis was
    detected and indexes one of the data's dimensions. -/
theorem c2_scale_length (nmd : Dict) (ch : Option Nat) (shape : List Nat)
    (md : Dict) (s : Val)
    (hts : transform_scale nmd [] ch shape = .ok md)
    (hs : dget? md (.kstr "scale") = some s) :
    ∃ tv l0 pre t post vs,
      dget? nmd (.kstr "transformations") = some tv ∧
      pySubscript tv (.vint 0) = .ok l0 ∧
      toIterable l0 = .ok (pre ++ t :: post) ∧
      (∀ u ∈ post, ∀ vs', scaleDescOut u ch shape ≠ .ok (some vs')) ∧
      scaleDescOut t ch shape = .ok (some vs) ∧
      s = .vtuple vs ∧
      (∃ axis_indices scale ai sc sba,
        pySubscript t (.vstr "axisIndices") = .ok axis_indices ∧
        pySubscript t (.vstr "scale") = .ok scale ∧
        toIterable axis_indices = .ok ai ∧
        toIterable scale = .ok sc ∧
        (ai.zip sc).foldlM (fun d p =>
            match p.1 with
            | .vlist _ => Except.error PyErr.typeError
            | .vdict _ => Except.error PyErr.typeError
            | _ => Except.ok (vset d p.1 p.2)) [] = .ok sba ∧
        vs = (nonChannelDims shape ch).map
          (fun (dim : Nat) => vGetD sba (.vint dim) (.vint 1))) ∧
      vs.length = shape.length -
        (match ch with
         | some c => if c < shape.length then 1 else 0
         | none => 0) := by
  rcases transform_scale_cases nmd [] ch shape md hts with rfl |
    ⟨tv, l0, ts, hg, h0, hi, hl⟩
  · rw [show dget? [] (.kstr "scale") = none from rfl] at hs
    cases hs
  · have hchar := (scaleLoop_char ch shape ts [] md hl).1
    rw [hs, show dget? ([] : Dict) (.kstr "scale") = none from rfl]
      at hchar
    rcases lastStored_some_inv_last ch shape ts none s hchar.symm with
      ⟨pre, t, post, vs, hts_eq, ho, hw, hpost⟩ | ⟨habs, _⟩
    · obtain ⟨axis_indices, scale, ai, sc, sba, ha1, ha2, ha3, ha4, ha5,
        hvs, hpos⟩ := scaleDescOut_some t ch shape vs ho
      refine ⟨tv, l0, pre, t, post, vs, hg, h0, ?_, hpost, ho, hw,
        ⟨axis_indices, scale, ai, sc, sba, ha1, ha2, ha3, ha4, ha5, hvs⟩,
        ?_⟩
      · rw [← hts_eq]
        exact hi
      · rw [hvs, List.length_map, length_nonChannelDims]
    · cases habs

def cexScaleNodeA : Node :=
  { data := some [⟨[4]⟩],
    metadata := [(.kstr "axes", .vlist [demoAxesSpace]),
                 (.kstr "transformations",
                  .vlist [.vlist [.vdict
                    [(.kstr "axisIndices", .vlist [.vint 0]),
                     (.kstr "scale", .vlist [.vint 2])]]])],
    isLabel := false }

def cexScaleNodeB : Node :=
  { data := some [⟨[4, 4]⟩],
    metadata := [(.kstr "axes", .vlist [demoAxesSpace, demoAxesSpace])],
    isLabel := false }

/-- C2 counterexample: a concrete pass in which the second emitted record
    inherits the first record's one-entry scale although its own level-0
    data has two dimensions and no channel axis was detected for it — the
    claimed equality `scale length = dimensions - 0` fails on an emitted
    record whose scale was inherited. -/
theorem c2_scale_length_cex :
    (transform_f [cexScaleNodeA, cexScaleNodeB]).2 =
      .ok [⟨[⟨[4]⟩], [(.kstr "scale", .vtuple [.vint 2])], "image"⟩,
           ⟨[⟨[4, 4]⟩], [(.kstr "scale", .vtuple [.vint 2])], "image"⟩] ∧
    get_channel_axis cexScaleNodeB.metadata = .ok none ∧
    ([Val.vint 2] : List Val).length = 1 ∧
    ((cexScaleNodeB.data.getD []).headD ⟨[]⟩).shape.length = 2 ∧
    (1 : Nat) ≠ 2 - 0 :=
  ⟨rfl, rfl, rfl, rfl, by decide⟩

theorem c2_scale_length_witness :
    transform_scale cexScaleNodeA.metadata [] none [4] =
      .ok [(.kstr "scale", .vtuple [.vint 2])] ∧
    dget? [(.kstr "scale", .vtuple [.vint 2])] (.kstr "scale") =
      some (.vtuple [.vint 2]) ∧
    (∃ tv l0 pre t post vs,
      dget? cexScaleNodeA.metadata (.kstr "transformations") = some tv ∧
      pySubscript tv (.vint 0) = .ok l0 ∧
      toIterable l0 = .ok (pre ++ t :: post) ∧
      (∀ u ∈ post, ∀ vs', scaleDescOut u none [4] ≠ .ok (some vs')) ∧
      scaleDescOut t none [4] = .ok (some vs) ∧
      Val.vtuple [.vint 2] = .vtuple vs ∧
      (∃ axis_indices scale ai sc sba,
        pySubscript t (.vstr "axisIndices") = .ok axis_indices ∧
        pySubscript t (.vstr "scale") = .ok scale ∧
        toIterable axis_indices = .ok ai ∧
        toIterable scale = .ok sc ∧
        (ai.zip sc).foldlM (fun d p =>
            match p.1 with
            | .vlist _ => Except.error PyErr.typeError
            | .vdict _ => Except.error PyErr.typeError
            | _ => Except.ok (vset d p.1 p.2)) [] = .ok sba ∧
        vs = (nonChannelDims [4] none).map
          (fun (dim : Nat) => vGetD sba (.vint dim) (.vint 1))) ∧
      vs.length = ([4] : List Nat).length -
        (match (none : Option Nat) with
         | some c => if c < ([4] : List Nat).length then 1 else 0
         | none => 0)) :=
  ⟨rfl, rfl,
   c2_scale_length cexScaleNodeA.metadata none [4]
     [(.kstr "scale", .vtuple [.vint 2])] (.vtuple [.vint 2]) rfl rfl⟩

/-- C3 (amended): when the level-0 transform list contains several
    descriptors carrying both `scale` and `axisIndices`, the stored
    `scale` metadata comes from the last such descriptor alone — it fully
    overwrites earlier ones, and dimensions it does not cover default to
    1 rather than retaining an earlier descriptor's value. -/
theorem c3_last_descriptor_wins (nmd : Dict) (ch : Option Nat)
    (shape : List Nat) (md : Dict) (tv l0 : Val) (pre post : List Val)
    (t : Val) (vs : List Val)
    (hts : transform_scale nmd [] ch shape = .ok md)
    (hg : dget? nmd (.kstr "transformations") = some tv)
    (h0 : pySubscript tv (.vint 0) = .ok l0)
    (hi : toIterable l0 = .ok (pre ++ t :: post))
    (ht : scaleDescOut t ch shape = .ok (some vs))
    (hpost : ∀ u ∈ post, scaleDescOut u ch shape = .ok none) :
    dget? md (.kstr "scale") = some (.vtuple vs) := by
  unfold transform_scale at hts
  have hdm : dmem nmd (.kstr "transformations") = true := by
    unfold dmem
    rw [hg]
    rfl
  rw [if_pos hdm] at hts
  simp only [hg, h0, hi] at hts
  have hchar := (scaleLoop_char ch shape (pre ++ t :: post) [] md hts).1
  rw [hchar, show dget? ([] : Dict) (.kstr "scale") = none from rfl,
    lastStored_append]
  rw [show lastStored (t :: post) ch shape
      (lastStored pre ch shape none) =
    lastStored post ch shape
      (match scaleDescOut t ch shape with
       | .ok (some vs) => some (.vtuple vs)
       | _ => lastStored pre ch shape none) from rfl]
  simp only [ht]
  exact lastStored_all_none ch shape post _ hpost

def cexDescA : Val :=
  .vdict [(.kstr "axisIndices", .vlist [.vint 0]),
          (.kstr "scale", .vlist [.vint 2])]

def cexDescB : Val :=
  .vdict [(.kstr "axisIndices", .vlist [.vint 1]),
          (.kstr "scale", .vlist [.vint 3])]

/-- C3 counterexample: two qualifying descriptors, the first scaling
    dimension 0 by 2, the second scaling dimension 1 by 3.  The code
    stores (1, 3) — the last descriptor's values with default 1 for
    dimension 0 — while the per-dimension last-wins merge the claim
    describes (spec_merge_scale) yields (2, 3), retaining the first
    descriptor's value for the non-overlapping dimension. -/
theorem c3_last_descriptor_wins_cex :
    transform_scale
      [(.kstr "transformations", .vlist [.vlist [cexDescA, cexDescB]])]
      [] none [4, 4] =
      .ok [(.kstr "scale", .vtuple [.vint 1, .vint 3])] ∧
    spec_merge_scale [[(0, .vint 2)], [(1, .vint 3)]] none [4, 4] =
      some [.vint 2, .vint 3] ∧
    Val.vtuple [.vint 1, .vint 3] ≠ Val.vtuple [.vint 2, .vint 3] := by
  refine ⟨rfl, rfl, fun h => ?_⟩
  simp at h

theorem c3_last_descriptor_wins_witness :
    transform_scale
      [(.kstr "transformations", .vlist [.vlist [cexDescA, cexDescB]])]
      [] none [4, 4] =
      .ok [(.kstr "scale", .vtuple [.vint 1, .vint 3])] ∧
    scaleDescOut cexDescB none [4, 4] = .ok (some [.vint 1, .vint 3]) ∧
    dget? [(.kstr "scale", .vtuple [.vint 1, .vint 3])] (.kstr "scale") =
      some (.vtuple [.vint 1, .vint 3]) :=
  ⟨rfl, rfl,
   c3_last_descriptor_wins
     [(.kstr "transformations", .vlist [.vlist [cexDescA, cexDescB]])]
     none [4, 4] [(.kstr "scale", .vtuple [.vint 1, .vint 3])]
     (.vlist [.vlist [cexDescA, cexDescB]]) (.vlist [cexDescA, cexDescB])
     [cexDescA] [] cexDescB [.vint 1, .vint 3]
     rfl rfl rfl rfl rfl (fun u hu => absurd hu (List.not_mem_nil u))⟩

/-- C6 (amended): for a properties mapping in which no object carries a
    field literally named "index", the pivot produces an `"index"` list
    holding the object ids in original order (length = number of
    objects), one same-length list per field observed in any object —
    aligned positionally, with the explicit absent marker `None` where an
    object lacks the field — and no other keys; an absent `properties`
    value pivots to `None` and the output key is omitted entirely. -/
theorem c6_property_pivot (ps : List (Key × List (Key × Val)))
    (nodeMd md : Dict)
    (hno : ∀ p ∈ ps, dget? p.2 (.kstr "index") = none) :
    dget? (transform_properties_core ps) (.kstr "index") =
      some (.vlist (ps.map (fun p => keyToVal p.1))) ∧
    (ps.map (fun p => keyToVal p.1)).length = ps.length ∧
    (∀ k, (∃ p ∈ ps, (dget? p.2 k).isSome) →
      dget? (transform_properties_core ps) k =
        some (.vlist (ps.map (fun p => (dget? p.2 k).getD .vnone))) ∧
      (ps.map (fun p => (dget? p.2 k).getD .vnone)).length = ps.length) ∧
    (∀ k, k ∈ (transform_properties_core ps).map Prod.fst →
      k = Key.kstr "index" ∨ ∃ p ∈ ps, (dget? p.2 k).isSome) ∧
    transform_properties none = .ok none ∧
    (dget? nodeMd (.kstr "properties") = none →
      addProps nodeMd md = .ok md) := by
  obtain ⟨_, _, hobs⟩ := buildEmptyLists_char ps
  have hobs' : ∀ k, k ∈ observedKeys ps ↔ ∃ p ∈ ps, (dget? p.2 k).isSome := by
    intro k
    rw [hobs k]
    constructor
    · rintro ⟨p, hp, hk⟩
      exact ⟨p, hp, (dget?_isSome_iff_mem p.2 k).mpr hk⟩
    · rintro ⟨p, hp, hk⟩
      exact ⟨p, hp, (dget?_isSome_iff_mem p.2 k).mp hk⟩
  have hidxnot : Key.kstr "index" ∉ observedKeys ps := by
    intro hmem
    obtain ⟨p, hp, hk⟩ := (hobs' _).mp hmem
    rw [hno p hp] at hk
    cases hk
  refine ⟨?_, by rw [List.length_map], ?_, ?_, rfl, ?_⟩
  · rw [pivot_char ps (.kstr "index"), if_pos (index_mem_pivotKeys ps)]
    have hcontrib : pivotContrib (observedKeys ps) (.kstr "index") =
        fun p => [keyToVal p.1] := by
      funext p
      unfold pivotContrib
      rw [if_pos rfl, if_neg hidxnot, List.append_nil]
    rw [hcontrib, flatMap_single]
  · intro k hk
    have hkobs : k ∈ observedKeys ps := (hobs' k).mpr hk
    have hkne : k ≠ Key.kstr "index" := by
      rintro rfl
      obtain ⟨p, hp, hsome⟩ := hk
      rw [hno p hp] at hsome
      cases hsome
    refine ⟨?_, by rw [List.length_map]⟩
    rw [pivot_char ps k, if_pos (observed_sub_pivotKeys ps k hkobs)]
    have hcontrib : pivotContrib (observedKeys ps) k =
        fun p => [(dget? p.2 k).getD .vnone] := by
      funext p
      unfold pivotContrib
      rw [if_neg hkne, if_pos hkobs, List.nil_append]
    rw [hcontrib, flatMap_single]
  · intro k hk
    rw [keys_transform_properties_core] at hk
    rcases mem_pivotKeys_cases ps k hk with hk | hk
    · exact Or.inl hk
    · exact Or.inr ((hobs' k).mp hk)
  · intro habs
    unfold addProps
    rw [habs]
    rfl

def demoProps : List (Key × List (Key × Val)) :=
  [(.kint 1, [(.kstr "roiId", .vint 10)]),
   (.kint 2, [(.kstr "roiId", .vint 20), (.kstr "shapeId", .vint 99)])]

theorem c6_property_pivot_witness :
    transform_properties_core demoProps =
      [(.kstr "roiId", .vlist [.vint 10, .vint 20]),
       (.kstr "shapeId", .vlist [.vnone, .vint 99]),
       (.kstr "index", .vlist [.vint 1, .vint 2])] ∧
    (dget? (transform_properties_core demoProps) (.kstr "index") =
      some (.vlist (demoProps.map (fun p => keyToVal p.1))) ∧
     (demoProps.map (fun p => keyToVal p.1)).length = demoProps.length ∧
     (∀ k, (∃ p ∈ demoProps, (dget? p.2 k).isSome) →
       dget? (transform_properties_core demoProps) k =
         some (.vlist (demoProps.map
           (fun p => (dget? p.2 k).getD .vnone))) ∧
       (demoProps.map (fun p => (dget? p.2 k).getD .vnone)).length =
         demoProps.length) ∧
     (∀ k, k ∈ (transform_properties_core demoProps).map Prod.fst →
       k = Key.kstr "index" ∨ ∃ p ∈ demoProps, (dget? p.2 k).isSome) ∧
     transform_properties none = .ok none ∧
     (dget? ([] : Dict) (.kstr "properties") = none →
       addProps [] [] = .ok [])) := by
  refine ⟨rfl, ?_⟩
  refine c6_property_pivot demoProps [] [] ?_
  intro p hp
  rcases List.mem_cons.mp hp with rfl | hp
  · rfl
  · rcases List.mem_cons.mp hp with rfl | hp
    · rfl
    · cases hp

/-- C6 counterexample: for the one-object mapping whose object `1`
    carries a field literally named "index" with value 5, the pivoted
    `"index"` list is `[1, 5]` — both the id and the field value are
    appended — so its length is 2, not the number of objects (1), and it
    is not the list of object ids. -/
theorem c6_property_pivot_cex :
    transform_properties_core [(.kint 1, [(.kstr "index", .vint 5)])] =
      [(.kstr "index", .vlist [.vint 1, .vint 5])] ∧
    ([Val.vint 1, Val.vint 5] : List Val).length ≠
      ([((.kint 1 : Key), [((.kstr "index" : Key), Val.vint 5)])]).length ∧
    ([Val.vint 1, Val.vint 5] : List Val) ≠ [keyToVal (.kint 1)] := by
  refine ⟨rfl, by decide, fun h => ?_⟩
  simp [keyToVal] at h

/-- C10: when at least one object carries a field literally named
    "index", transform_properties appends both the object ids and that
    field's looked-up values into the same output "index" list — two
    appends per object, the id then the field value or None — so the
    output "index" list has length twice the number of objects and is not
    the list of object ids. -/
theorem c10_index_field_collision (ps : List (Key × List (Key × Val)))
    (hhas : ∃ p ∈ ps, (dget? p.2 (.kstr "index")).isSome) :
    dget? (transform_properties_core ps) (.kstr "index") =
      some (.vlist (ps.flatMap (fun p =>
        [keyToVal p.1, (dget? p.2 (.kstr "index")).getD .vnone]))) ∧
    (ps.flatMap (fun p =>
      [keyToVal p.1, (dget? p.2 (.kstr "index")).getD .vnone])).length =
      2 * ps.length ∧
    ps.flatMap (fun p =>
      [keyToVal p.1, (dget? p.2 (.kstr "index")).getD .vnone]) ≠
      ps.map (fun p => keyToVal p.1) := by
  obtain ⟨_, _, hobs⟩ := buildEmptyLists_char ps
  have hidxin : Key.kstr "index" ∈ observedKeys ps := by
    rw [hobs]
    obtain ⟨p, hp, hk⟩ := hhas
    exact ⟨p, hp, (dget?_isSome_iff_mem p.2 _).mp hk⟩
  have hlen : 0 < ps.length := by
    obtain ⟨p, hp, _⟩ := hhas
    exact List.length_pos_of_mem hp
  refine ⟨?_, flatMap_pair_length _ _ ps, fun heq => ?_⟩
  · rw [pivot_char ps (.kstr "index"), if_pos (index_mem_pivotKeys ps)]
    have hcontrib : pivotContrib (observedKeys ps) (.kstr "index") =
        fun p => [keyToVal p.1,
          (dget? p.2 (.kstr "index")).getD .vnone] := by
      funext p
      unfold pivotContrib
      rw [if_pos rfl, if_pos hidxin]
      rfl
    rw [hcontrib]
  · have h1 := congrArg List.length heq
    rw [flatMap_pair_length, List.length_map] at h1
    omega

def demoPropsIdx : List (Key × List (Key × Val)) :=
  [(.kint 1, [(.kstr "index", .vint 5)])]

theorem c10_index_field_collision_witness :
    dget? (transform_properties_core demoPropsIdx) (.kstr "index") =
      some (.vlist (demoPropsIdx.flatMap (fun p =>
        [keyToVal p.1, (dget? p.2 (.kstr "index")).getD .vnone]))) ∧
    (demoPropsIdx.flatMap (fun p =>
      [keyToVal p.1, (dget? p.2 (.kstr "index")).getD .vnone])).length =
      2 * demoPropsIdx.length ∧
    demoPropsIdx.flatMap (fun p =>
      [keyToVal p.1, (dget? p.2 (.kstr "index")).getD .vnone]) ≠
      demoPropsIdx.map (fun p => keyToVal p.1) :=
  c10_index_field_collision demoPropsIdx
    ⟨(.kint 1, [(.kstr "index", .vint 5)]),
     List.mem_cons_self _ _, by decide⟩
